import Mathlib

/-!
Verification development for the `all-is-cubes` world-store subsystem:
a shallow embedding, in Lean 4, of the `Space` container (block interning
table, contents array, light bookkeeping), the `ChunkChart` chunk
enumeration, and the `Grid` coordinate arithmetic, together with proofs of
the specification's testable properties.

Sources embedded:
 * `all-is-cubes/src/space.rs` (`Space`, `Space::set_impl`,
   `Space::ensure_block_index`, `Space::fill`, `Space::fill_uniform`,
   `Space::evaluate_light`, `Space::side_effects_of_set`, `SpaceBlockData`,
   `SetCubeError`, `SpaceChange`).
 * `all-is-cubes/src/chunking.rs` (`ChunkChart::new`, `ChunkChart::chunks`,
   `TwoIter`).
 * `src/space.rs` (the repository's `Grid`: lower bounds, sizes, `volume`,
   `index`).
 * `all-is-cubes/src/math.rs` (`int_magnitude_squared`).

Components whose defining file is not part of the source tree (the block
module, the light module) are modelled from the spec; each such definition
carries a `Modelled from the spec:` note.

Machine-integer remarks: `GridCoordinate` (`i32`) is modelled as `Int` and
`usize`/counts as `Nat`; none of the verified claims exercises wrap-around,
and `Grid::new` asserts that volumes and coordinate sums do not overflow.
`FreeCoordinate` (`f64`) is modelled as `ℚ`; the claims under study depend
on the float pipeline only through `ceil((d/16)^2)` on non-negative finite
inputs, which ℚ represents exactly (NaN, handled by `sanitize_distance`
clamping to zero, has no ℚ counterpart and is noted where relevant).
-/

/-- Decidable equality for `Except` results (not provided by core). -/
instance {ε α : Type} [DecidableEq ε] [DecidableEq α] : DecidableEq (Except ε α) := fun a b =>
  match a, b with
  | .ok x, .ok y =>
    if h : x = y then isTrue (by rw [h]) else isFalse (fun hc => h (Except.ok.inj hc))
  | .error x, .error y =>
    if h : x = y then isTrue (by rw [h]) else isFalse (fun hc => h (Except.error.inj hc))
  | .ok _, .error _ => isFalse (fun hc => Except.noConfusion hc)
  | .error _, .ok _ => isFalse (fun hc => Except.noConfusion hc)

namespace AllIsCubes

/-- `GridPoint` / `cgmath::Point3<GridCoordinate>`: integer cube coordinates. -/
structure GridPoint where
  x : Int
  y : Int
  z : Int
deriving DecidableEq

/-- `GridVector` is the same data as `GridPoint` (cgmath distinguishes
points from vectors; the embedding does not need to). -/
abbrev GridVector := GridPoint

instance : Add GridPoint := ⟨fun a b => ⟨a.x + b.x, a.y + b.y, a.z + b.z⟩⟩

theorem GridPoint.add_def (a b : GridPoint) :
    a + b = ⟨a.x + b.x, a.y + b.y, a.z + b.z⟩ := rfl

/-- `int_magnitude_squared` from `math.rs`. -/
def intMagnitudeSquared (v : GridVector) : Int :=
  v.x * v.x + v.y * v.y + v.z * v.z

/-- The list `a, a+1, ..., a+n-1` of `n` consecutive integers. -/
def intRange (a : Int) (n : Nat) : List Int :=
  (List.range n).map (fun (i : Nat) => a + (i : Int))

/-- `Grid` from `src/space.rs`: an axis-aligned box given by lower bounds
and (positive) sizes.  `Grid::new` asserts the sizes are positive and that
neither the coordinate sums nor the volume overflow; the embedding keeps
the fields unconstrained and lets `index` reject impossible boxes. -/
structure Grid where
  lowerBounds : GridPoint
  sizes : GridPoint
deriving DecidableEq

/-- `Grid::volume`. -/
def Grid.volume (g : Grid) : Nat :=
  (g.sizes.x * g.sizes.y * g.sizes.z).toNat

/-- `Grid::index`: whether a point lies in the grid, and its flattened
(row-major, `z` fastest) array index. -/
def Grid.index (g : Grid) (p : GridPoint) : Option Nat :=
  let dx := p.x - g.lowerBounds.x
  let dy := p.y - g.lowerBounds.y
  let dz := p.z - g.lowerBounds.z
  if 0 ≤ dx ∧ dx < g.sizes.x ∧ 0 ≤ dy ∧ dy < g.sizes.y ∧ 0 ≤ dz ∧ dz < g.sizes.z then
    some ((dx * g.sizes.y + dy) * g.sizes.z + dz).toNat
  else
    none

/-- `Grid::single_cube` (used by `set_impl` to report out-of-bounds). -/
def Grid.singleCube (p : GridPoint) : Grid :=
  ⟨p, ⟨1, 1, 1⟩⟩

/-- Modelled from the spec: `Grid` containment (`Grid::contains_grid`,
whose defining file `space/grid.rs` is not in the source tree): every cube
of `other` is a cube of `g`, expressed by component-wise bounds. -/
def Grid.containsGrid (g other : Grid) : Bool :=
  decide (g.lowerBounds.x ≤ other.lowerBounds.x ∧
    g.lowerBounds.y ≤ other.lowerBounds.y ∧
    g.lowerBounds.z ≤ other.lowerBounds.z ∧
    other.lowerBounds.x + other.sizes.x ≤ g.lowerBounds.x + g.sizes.x ∧
    other.lowerBounds.y + other.sizes.y ≤ g.lowerBounds.y + g.sizes.y ∧
    other.lowerBounds.z + other.sizes.z ≤ g.lowerBounds.z + g.sizes.z)

/-- Modelled from the spec: `Grid::interior_iter` enumerates the grid's
cubes in the fixed total order consistent with `Grid::index`
(row-major, `z` fastest). -/
def Grid.interiorIter (g : Grid) : List GridPoint :=
  (intRange g.lowerBounds.x g.sizes.x.toNat).flatMap fun px =>
    (intRange g.lowerBounds.y g.sizes.y.toNat).flatMap fun py =>
      (intRange g.lowerBounds.z g.sizes.z.toNat).map fun pz => ⟨px, py, pz⟩

/-! ### Chunking (`chunking.rs`) -/

/-- `CHUNK_SIZE` (as a rational, for the view-distance conversion). -/
def CHUNK_SIZE_FREE : ℚ := 16

/-- `ChunkPos`: chunk-space coordinates. -/
structure ChunkPos where
  pos : GridPoint
deriving DecidableEq

/-- Floor of a rational as an integer, computed from the normalized
numerator and denominator (`Int` division is Euclidean, which on a
positive denominator is the floor). -/
def ratFloor (q : ℚ) : Int := q.num / (q.den : Int)

/-- Ceiling of a rational, model of `f64::ceil` on exactly-represented
inputs. -/
def ratCeil (q : ℚ) : Int := -(ratFloor (-q))

/-- `ChunkChart::sanitize_distance`: clamp negative (and NaN, which ℚ
cannot represent) view distances to zero. -/
def sanitizeDistance (viewDistance : ℚ) : ℚ := max viewDistance 0

/-- The integer `distance_squared` computed by `ChunkChart::new`:
`ceil((view_distance / CHUNK_SIZE)^2)` after sanitizing. -/
def chartDistanceSquared (viewDistance : ℚ) : Int :=
  ratCeil ((sanitizeDistance viewDistance / CHUNK_SIZE_FREE) ^ 2)

/-- The filter of `ChunkChart::new`: keep a candidate octant chunk iff the
squared magnitude of `max(v - 1, 0)` (component-wise) is at most
`distance_squared`. -/
def chunkFilter (distanceSquared : Int) (c : GridVector) : Bool :=
  decide (intMagnitudeSquared ⟨max (c.x - 1) 0, max (c.y - 1) 0, max (c.z - 1) 0⟩
    ≤ distanceSquared)

/-- `ChunkChart::sort_key` as an ordering relation: compare
`(squared magnitude, x, y, z)` lexicographically. -/
def sortKeyLE (a b : GridVector) : Prop :=
  intMagnitudeSquared a < intMagnitudeSquared b ∨
    (intMagnitudeSquared a = intMagnitudeSquared b ∧
      (a.x < b.x ∨ (a.x = b.x ∧ (a.y < b.y ∨ (a.y = b.y ∧ a.z ≤ b.z)))))

instance : DecidableRel sortKeyLE := fun a b => by
  unfold sortKeyLE; exact inferInstance

instance : IsTotal GridVector sortKeyLE :=
  ⟨by intro a b; unfold sortKeyLE; omega⟩

instance : IsTrans GridVector sortKeyLE :=
  ⟨by intro a b c; unfold sortKeyLE; omega⟩

/-- The octant-chunk list computed by `ChunkChart::new` for a given
integer `distance_squared`: enumerate the candidate box
`(0,0,0)..=(distance_squared, distance_squared, distance_squared)`,
filter, and sort by `sort_key`.  (`sort_unstable_by_key` is modelled by
`insertionSort`; the sort key determines the vector, so every sorted
permutation of the filtered candidates is the same list.) -/
def octantChunksFor (distanceSquared : Int) : List GridVector :=
  let candidates : Grid :=
    ⟨⟨0, 0, 0⟩, ⟨distanceSquared + 1, distanceSquared + 1, distanceSquared + 1⟩⟩
  List.insertionSort sortKeyLE
    (candidates.interiorIter.filter (chunkFilter distanceSquared))

/-- `ChunkChart`: sanitized view distance plus the precomputed octant. -/
structure ChunkChart where
  viewDistance : ℚ
  octantChunks : List GridVector
deriving DecidableEq

/-- `ChunkChart::new`. -/
def ChunkChart.new (viewDistance : ℚ) : ChunkChart :=
  ⟨sanitizeDistance viewDistance, octantChunksFor (chartDistanceSquared viewDistance)⟩

/-- `TwoIter::distinct(a, b)` viewed as a list: `a`, then `b` if unequal. -/
def twoIterList (a b : GridVector) : List GridVector :=
  if a = b then [a] else [a, b]

/-- `TwoIter` traversed from the back (`next_back`): `b` if unequal, then
`a`. -/
def twoIterListBack (a b : GridVector) : List GridVector :=
  if a = b then [a] else [b, a]

/-- `ChunkChart::chunks`, forward direction: mirror each octant chunk
across the three coordinate planes (skipping duplicates on zero
coordinates, as `TwoIter::distinct` does) and translate by the origin. -/
def ChunkChart.chunksList (c : ChunkChart) (origin : ChunkPos) : List ChunkPos :=
  ((((c.octantChunks.flatMap fun v => twoIterList ⟨-v.x, v.y, v.z⟩ v).flatMap
      fun v => twoIterList ⟨v.x, -v.y, v.z⟩ v).flatMap
      fun v => twoIterList ⟨v.x, v.y, -v.z⟩ v).map
      fun v => ChunkPos.mk (origin.pos + v))

/-- `ChunkChart::chunks().rev()`: the same iterator chain traversed from
the back.  Rust's `DoubleEndedIterator` for `flat_map` walks the outer
iterator in reverse and each inner `TwoIter` via `next_back`; `map`
commutes with reversal. -/
def ChunkChart.chunksListBack (c : ChunkChart) (origin : ChunkPos) : List ChunkPos :=
  ((((c.octantChunks.reverse.flatMap fun v => twoIterListBack ⟨-v.x, v.y, v.z⟩ v).flatMap
      fun v => twoIterListBack ⟨v.x, -v.y, v.z⟩ v).flatMap
      fun v => twoIterListBack ⟨v.x, v.y, -v.z⟩ v).map
      fun v => ChunkPos.mk (origin.pos + v))

/-- The spec's (§4.3 step 2) candidate enumeration, stated per its own
words rather than the source: offsets with every coordinate in
`0..=sqrt(distance_squared)+1`, kept iff they pass the chunk filter.
Used only to compare the spec's claim against the code. -/
def specRetainedMember (distanceSquared : Int) (v : GridVector) : Bool :=
  decide (0 ≤ v.x ∧ v.x ≤ Int.sqrt distanceSquared + 1 ∧
    0 ≤ v.y ∧ v.y ≤ Int.sqrt distanceSquared + 1 ∧
    0 ≤ v.z ∧ v.z ≤ Int.sqrt distanceSquared + 1) &&
  chunkFilter distanceSquared v

/-- The 27 offsets `{-1,0,1}^3` in lexicographic order (for the epsilon
boundary case). -/
def neighborCube : List GridVector :=
  (intRange (-1) 3).flatMap fun vx =>
    (intRange (-1) 3).flatMap fun vy =>
      (intRange (-1) 3).map fun vz => ⟨vx, vy, vz⟩

/-! ### Blocks and evaluation

Modelled from the spec: the block module is not part of the source tree.
The spec (§3) requires only that a block definition be an opaque,
comparable, cloneable value whose evaluation (an external collaborator,
§6) yields an evaluated form — an opacity classification plus attributes —
or fails with a block-evaluation error.  `atom` blocks carry their
evaluated opacity and tick-action flags; `invalid` blocks are the ones
whose evaluation fails. -/

/-- Modelled from the spec: a block definition (equality is deduplication
identity). -/
inductive Block where
  | air
  | atom (id : Nat) (opaq : Bool) (tick : Bool)
  | invalid (id : Nat)
deriving DecidableEq

/-- Modelled from the spec: the evaluated form of a block — opacity
classification plus the tick-action attribute consulted by
`side_effects_of_set`. -/
structure EvaluatedBlock where
  opaq : Bool
  tick : Bool
deriving DecidableEq

/-- Modelled from the spec: `EvalBlockError`, the error of the
block-evaluation collaborator. -/
inductive EvalBlockError where
  | evalFail
deriving DecidableEq

/-- `AIR_EVALUATED`: the evaluation of the canonical empty block. -/
def airEvaluated : EvaluatedBlock := ⟨false, false⟩

/-- Modelled from the spec: `Block::evaluate`. -/
def Block.evaluate : Block → Except EvalBlockError EvaluatedBlock
  | .air => .ok airEvaluated
  | .atom _ op tk => .ok ⟨op, tk⟩
  | .invalid _ => .error .evalFail

/-- Modelled from the spec: `opaque_for_light_computation` (light module
not in the source tree): whether the evaluated block blocks light
entirely. -/
def opaqueForLightComputation (ev : EvaluatedBlock) : Bool := ev.opaq

/-- Modelled from the spec: `PackedLight` — a packed RGB value with status
bits for "uninitialized" and "known opaque (fully dark)". -/
inductive PackedLight where
  | uninit
  | dark
  | one
  | value (r g b : Nat)
deriving DecidableEq

/-- `PackedLightScalar::MAX` (`u8::MAX`), the maximum queue priority. -/
def packedLightScalarMax : Nat := 255

/-- `LightPhysics` (`space.rs`): the illumination method. -/
inductive LightPhysics where
  | none
  | rays (maximumDistance : Nat)
deriving DecidableEq

/-- `SpaceChange` (`space.rs`): change notifications sent to listeners. -/
inductive SpaceChange where
  | block (p : GridPoint)
  | lighting (p : GridPoint)
  | number (i : Nat)
  | blockValue (i : Nat)
  | everyBlock
deriving DecidableEq

/-- `SetCubeError` (`space.rs`). -/
inductive SetCubeError where
  | outOfBounds (modification : Grid) (spaceBounds : Grid)
  | evalBlock (e : EvalBlockError)
  | tooManyBlocks
deriving DecidableEq

/-- `SpaceBlockData` (`space.rs`): one block-table entry.  The
`block_listen_gate` field (a notification-wiring resource with no
observable data content) is omitted. -/
structure SpaceBlockData where
  block : Block
  count : Nat
  evaluated : EvaluatedBlock
deriving DecidableEq

/-- `SpaceBlockData::NOTHING`. -/
def SpaceBlockData.NOTHING : SpaceBlockData :=
  ⟨Block.air, 0, airEvaluated⟩

/-- `SpaceBlockData::tombstone()`: the value written over freed entries. -/
def SpaceBlockData.tombstone : SpaceBlockData :=
  ⟨Block.air, 0, airEvaluated⟩

/-- `SpaceBlockData::new`: evaluate the block (this can fail, mapped to
`SetCubeError::EvalBlock`, as can the `Block::listen` registration which
the model folds into evaluation) and build an entry with count 0. -/
def SpaceBlockData.new (b : Block) : Except SetCubeError SpaceBlockData :=
  match b.evaluate with
  | .error e => .error (.evalBlock e)
  | .ok ev => .ok ⟨b, 0, ev⟩

/-! ### The block-to-index map and small container models

`block_to_index` is a `HashMap<Block, BlockIndex>`; it is modelled as an
association list with the map's observable operations (`get`, `insert`
replacing an existing key, `remove`). -/

/-- `HashMap::get` on the association-list model. -/
def mapGet : List (Block × Nat) → Block → Option Nat
  | [], _ => none
  | e :: t, b => if e.1 = b then some e.2 else mapGet t b

/-- `HashMap::insert` (replace the existing entry for the key, else add). -/
def mapInsert : List (Block × Nat) → Block → Nat → List (Block × Nat)
  | [], b, i => [(b, i)]
  | e :: t, b, i => if e.1 = b then (b, i) :: t else e :: mapInsert t b i

/-- `HashMap::remove`. -/
def mapRemove : List (Block × Nat) → Block → List (Block × Nat)
  | [], _ => []
  | e :: t, b => if e.1 = b then mapRemove t b else e :: mapRemove t b

/-- Modelled from the spec: the light-update queue (light module not in
the source tree) — pending cells with priorities, deduplicated by
coordinate; re-inserting may only raise a priority. -/
def lqInsert (q : List (GridPoint × Nat)) (p : GridPoint) (pri : Nat) :
    List (GridPoint × Nat) :=
  if q.any (fun e => e.1 = p) then
    q.map (fun e => if e.1 = p then (p, max e.2 pri) else e)
  else
    (p, pri) :: q

/-- `HashSet::insert` for `cubes_wanting_ticks`. -/
def hsInsert (s : List GridPoint) (p : GridPoint) : List GridPoint :=
  if p ∈ s then s else p :: s

/-- `Face6::ALL` normal vectors, in declaration order
(`NX, NY, NZ, PX, PY, PZ`, per `math/face.rs`). -/
def face6Normals : List GridVector :=
  [⟨-1, 0, 0⟩, ⟨0, -1, 0⟩, ⟨0, 0, -1⟩, ⟨1, 0, 0⟩, ⟨0, 1, 0⟩, ⟨0, 0, 1⟩]

/-! ### The `Space` itself -/

/-- `Space` (`space.rs`).  Fields not bearing on any verified claim —
`physics.gravity` and `physics.sky_color` (floating-point rendering
parameters), `behaviors`, `spawn`, `notifier` (notifications are modelled
as explicit result lists), `todo`, and `last_light_updates` — are
omitted. -/
structure Space where
  grid : Grid
  blockToIndex : List (Block × Nat)
  blockData : List SpaceBlockData
  contents : List Nat
  lighting : List PackedLight
  lightUpdateQueue : List (GridPoint × Nat)
  physicsLight : LightPhysics
  cubesWantingTicks : List GridPoint
deriving DecidableEq

/-- Shorthand for the panic-free table read `self.block_data[i]` (in the
original, indices are always in bounds; the model totalizes with
`NOTHING`, which is also the placeholder the original uses for
out-of-bounds data). -/
def bdGet (bd : List SpaceBlockData) (i : Nat) : SpaceBlockData :=
  bd.getD i SpaceBlockData.NOTHING

/-- `Space::new_from_builder` (via `SpaceBuilder`): the freshly
constructed space, entirely filled with `AIR` at index 0.  Lighting
initialization (`LightPhysics::initialize_lighting`, light module not in
the source tree) is modelled from the spec as an uninitialized parallel
array. -/
def Space.build (g : Grid) (lp : LightPhysics) : Space where
  grid := g
  blockToIndex := if g.volume > 0 then [(Block.air, 0)] else []
  blockData :=
    if g.volume > 0 then [{ block := Block.air, count := g.volume, evaluated := airEvaluated }]
    else []
  contents := List.replicate g.volume 0
  lighting := List.replicate g.volume PackedLight.uninit
  lightUpdateQueue := []
  physicsLight := lp
  cubesWantingTicks := []

/-- `Space::empty`. -/
def Space.empty (g : Grid) : Space :=
  Space.build g (LightPhysics.rays 30)

/-- `Space::get_evaluated`. -/
def Space.getEvaluated (s : Space) (position : GridPoint) : EvaluatedBlock :=
  match s.grid.index position with
  | some i => (bdGet s.blockData (s.contents.getD i 0)).evaluated
  | none => airEvaluated

/-- Modelled from the spec: `Space::light_needs_update` (light module not
in the source tree) — enqueue the cube with the given priority. -/
def Space.lightNeedsUpdate (s : Space) (position : GridPoint) (pri : Nat) : Space :=
  { s with lightUpdateQueue := lqInsert s.lightUpdateQueue position pri }

/-- The `cubes_wanting_ticks` insertion at the top of
`Space::side_effects_of_set`. -/
def Space.recordTickInterest (s : Space) (ev : EvaluatedBlock) (position : GridPoint) :
    Space :=
  if ev.tick then { s with cubesWantingTicks := hsInsert s.cubesWantingTicks position }
  else s

/-- One step of the neighbor loop of `Space::side_effects_of_set`: queue a
light update for the neighbor unless it is opaque. -/
def Space.neighborLightStep (position : GridPoint) (acc : Space) (f : GridVector) : Space :=
  if (acc.getEvaluated (position + f)).opaq = false then
    acc.lightNeedsUpdate (position + f) packedLightScalarMax
  else acc

/-- The lighting portion of `Space::side_effects_of_set`: darken the cell
immediately if the new block is opaque (notifying the lighting change),
else queue it at maximum priority; then queue all non-opaque neighbors. -/
def Space.lightingEffects (s1 : Space) (ev : EvaluatedBlock) (position : GridPoint)
    (contentsIndex : Nat) : Space × List SpaceChange :=
  if s1.physicsLight ≠ LightPhysics.none then
    let ra : Space × List SpaceChange :=
      if opaqueForLightComputation ev then
        ({ s1 with lighting := s1.lighting.set contentsIndex PackedLight.dark },
          [SpaceChange.lighting position])
      else
        (s1.lightNeedsUpdate position packedLightScalarMax, [])
    (face6Normals.foldl (Space.neighborLightStep position) ra.1, ra.2)
  else (s1, [])

/-- `Space::side_effects_of_set`: record tick interest, update or
invalidate lighting for the cell and its neighbors, and notify.  Returns
the new state and the notifications emitted (in order). -/
def Space.sideEffectsOfSet (s : Space) (blockIndex : Nat) (position : GridPoint)
    (contentsIndex : Nat) : Space × List SpaceChange :=
  let ev := (bdGet s.blockData blockIndex).evaluated
  let s1 : Space := s.recordTickInterest ev position
  let r2 : Space × List SpaceChange := s1.lightingEffects ev position contentsIndex
  (r2.1, r2.2 ++ [SpaceChange.block position])

/-- The free-slot search of `Space::ensure_block_index`
(`for new_index in 0..high_mark { if count == 0 { ... } }`): the lowest
index whose count is zero. -/
def findFreeIndex : List SpaceBlockData → Option Nat
  | [] => none
  | d :: rest =>
    if d.count = 0 then some 0 else (findFreeIndex rest).map (· + 1)

/-- `Space::ensure_block_index`: find or assign an index for the block.
The caller increments the count.  Every failure happens before any
mutation, so errors leave the state (kept by the caller) unchanged. -/
def Space.ensureBlockIndex (s : Space) (block : Block) :
    Except SetCubeError (Nat × Space × List SpaceChange) :=
  match mapGet s.blockToIndex block with
  | some oldIndex => .ok (oldIndex, s, [])
  | none =>
    match findFreeIndex s.blockData with
    | some newIndex =>
      match SpaceBlockData.new block with
      | .error e => .error e
      | .ok nd =>
        .ok (newIndex,
          { s with
            blockData := s.blockData.set newIndex nd,
            blockToIndex := mapInsert s.blockToIndex block newIndex },
          [SpaceChange.number newIndex])
    | none =>
      if s.blockData.length ≥ 65535 then .error SetCubeError.tooManyBlocks
      else
        match SpaceBlockData.new block with
        | .error e => .error e
        | .ok nd =>
          .ok (s.blockData.length,
            { s with
              blockData := s.blockData ++ [nd],
              blockToIndex := mapInsert s.blockToIndex block s.blockData.length },
            [SpaceChange.number s.blockData.length])

/-- The old-block decrement step of `Space::set_impl`: decrement the
count, and on reaching zero free the entry (remove its reverse mapping
and write a tombstone). -/
def Space.decrementOld (s1 : Space) (oldBlockIndex : Nat) : Space :=
  let oldData := bdGet s1.blockData oldBlockIndex
  if oldData.count - 1 = 0 then
    { s1 with
      blockToIndex := mapRemove s1.blockToIndex oldData.block,
      blockData := s1.blockData.set oldBlockIndex SpaceBlockData.tombstone }
  else
    { s1 with
      blockData :=
        s1.blockData.set oldBlockIndex { oldData with count := oldData.count - 1 } }

/-- The new-block increment step of `Space::set_impl`. -/
def Space.incrementNew (s2 : Space) (newBlockIndex : Nat) : Space :=
  { s2 with
    blockData := s2.blockData.set newBlockIndex
      { bdGet s2.blockData newBlockIndex with
        count := (bdGet s2.blockData newBlockIndex).count + 1 } }

/-- `Space::set_impl` (the body of `Space::set`): result, new state, and
the notifications emitted (in order). -/
def Space.setImpl (s : Space) (position : GridPoint) (block : Block) :
    Except SetCubeError Bool × Space × List SpaceChange :=
  match s.grid.index position with
  | none =>
    (.error (SetCubeError.outOfBounds (Grid.singleCube position) s.grid), s, [])
  | some contentsIndex =>
    let oldBlockIndex := s.contents.getD contentsIndex 0
    if (bdGet s.blockData oldBlockIndex).block = block then
      -- No change.
      (.ok false, s, [])
    else if (bdGet s.blockData oldBlockIndex).count = 1
        ∧ mapGet s.blockToIndex block = none then
      -- Replacing one unique block with a new one: reuse the same index.
      match SpaceBlockData.new block with
      | .error e => (.error e, s, [])
      | .ok newData =>
        let oldBlock := (bdGet s.blockData oldBlockIndex).block
        let s1 : Space :=
          { s with
            blockData := s.blockData.set oldBlockIndex { newData with count := 1 },
            blockToIndex :=
              mapInsert (mapRemove s.blockToIndex oldBlock) block oldBlockIndex }
        let r := s1.sideEffectsOfSet oldBlockIndex position contentsIndex
        (.ok true, r.1, SpaceChange.number oldBlockIndex :: r.2)
    else
      -- Find or allocate an index for the new block (done first; it can fail).
      match s.ensureBlockIndex block with
      | .error e => (.error e, s, [])
      | .ok (newBlockIndex, s1, notes1) =>
        -- Decrement the count of the old block (tombstoning on zero),
        -- increment the count of the new block, write the actual space
        -- change, then apply side effects.
        let s3 : Space := (s1.decrementOld oldBlockIndex).incrementNew newBlockIndex
        let s4 : Space := { s3 with contents := s3.contents.set contentsIndex newBlockIndex }
        let r := s4.sideEffectsOfSet newBlockIndex position contentsIndex
        (.ok true, r.1, notes1 ++ r.2)

/-- `Space::fill` restricted to uniform per-cell functions, by recursion
on the region's cube list: stop at the first error. -/
def Space.fillGo (s : Space) (block : Block) :
    List GridPoint → Except SetCubeError Unit × Space × List SpaceChange
  | [] => (.ok (), s, [])
  | cube :: rest =>
    match s.setImpl cube block with
    | (.error e, s', ns) => (.error e, s', ns)
    | (.ok _, s', ns) =>
      match s'.fillGo block rest with
      | (res, s'', ns') => (res, s'', ns ++ ns')

/-- `Space::fill` with the constant function `|_| Some(block)` (the only
use the verified claims need, via `fill_uniform`'s fallback): reject
regions outside the grid, else set every cube, stopping at the first
error. -/
def Space.fill (s : Space) (region : Grid) (block : Block) :
    Except SetCubeError Unit × Space × List SpaceChange :=
  if s.grid.containsGrid region then
    s.fillGo block region.interiorIter
  else
    (.error (SetCubeError.outOfBounds region s.grid), s, [])

/-- `Space::fill_uniform`: out-of-bounds regions are rejected; the whole
grid is re-initialized wholesale; anything else falls back to `fill`. -/
def Space.fillUniform (s : Space) (region : Grid) (block : Block) :
    Except SetCubeError Unit × Space × List SpaceChange :=
  if ¬ s.grid.containsGrid region then
    (.error (SetCubeError.outOfBounds region s.grid), s, [])
  else if s.grid = region then
    match SpaceBlockData.new block with
    | .error e => (.error e, s, [])
    | .ok newBlockData =>
      (.ok (),
        { s with
          blockToIndex := [(block, 0)],
          blockData := [{ newBlockData with count := region.volume }],
          contents := List.replicate s.contents.length 0 },
        [SpaceChange.everyBlock])
  else
    s.fill region block

/-- Modelled from the spec: the per-pass statistics of
`update_lighting_from_queue` (light module not in the source tree) as
destructured by `evaluate_light`: the number of updates performed, the
remaining queue size, and the highest remaining queue priority. -/
structure LightUpdatesInfo where
  updateCount : Nat
  queueCount : Nat
  maxQueuePriority : Nat
deriving DecidableEq

/-- `Space::evaluate_light`'s loop, parameterized by the queue-draining
pass `update_lighting_from_queue` (light module not in the source tree,
so the pass is abstract) and supplied with fuel, since an arbitrary pass
need not converge.  Returns the total update count, the list of
per-pass infos handed to `progress_callback` (in call order), and the
final state; `none` if the fuel runs out first. -/
def evaluateLightLoop (pass : Space → Space × LightUpdatesInfo) (epsilon : Nat) :
    Nat → Space → Option (Nat × List LightUpdatesInfo × Space)
  | 0, _ => none
  | fuel + 1, s =>
    let r := pass s
    if r.2.queueCount = 0 ∨ r.2.maxQueuePriority ≤ epsilon then
      some (r.2.updateCount, [r.2], r.1)
    else
      match evaluateLightLoop pass epsilon fuel r.1 with
      | none => none
      | some (t, infos, sf) => some (r.2.updateCount + t, r.2 :: infos, sf)

/-- The state reached by running `k` passes from `s`. -/
def passIterate (pass : Space → Space × LightUpdatesInfo) (k : Nat) (s : Space) : Space :=
  (fun t => (pass t).1)^[k] s

/-! ### Consistency (the refcount invariant) -/

/-- Every contents entry is a live table index. -/
def contentsInRange (s : Space) : Prop :=
  ∀ i ∈ s.contents, i < s.blockData.length

/-- The contents array has one entry per grid cube. -/
def contentsLengthOk (s : Space) : Prop :=
  s.contents.length = s.grid.volume

/-- Every table entry's count is the number of contents entries equal to
its index (`Space::consistency_check`, first section). -/
def countsExact (s : Space) : Prop :=
  ∀ i < s.blockData.length, (bdGet s.blockData i).count = s.contents.count i

/-- Every index with positive count is reverse-mapped from its block
value (`Space::consistency_check`, third section). -/
def forwardMapped (s : Space) : Prop :=
  ∀ i < s.blockData.length, 0 < (bdGet s.blockData i).count →
    mapGet s.blockToIndex (bdGet s.blockData i).block = some i

/-- Every reverse-map entry points at a live entry holding its key
(`Space::consistency_check`, fourth section, strengthened with liveness:
tombstones are absent from the map). -/
def backMapped (s : Space) : Prop :=
  ∀ b j, mapGet s.blockToIndex b = some j →
    j < s.blockData.length ∧ (bdGet s.blockData j).block = b ∧
      0 < (bdGet s.blockData j).count

/-- The full internal invariant of a `Space`. -/
def SpaceInv (s : Space) : Prop :=
  contentsLengthOk s ∧ contentsInRange s ∧ countsExact s ∧ forwardMapped s ∧ backMapped s

/-- States reachable from a freshly constructed space by successful `set`
operations. -/
inductive Reachable : Space → Prop
  | build (g : Grid) (lp : LightPhysics) : Reachable (Space.build g lp)
  | step {s : Space} (position : GridPoint) (block : Block) {changed : Bool}
      (hr : Reachable s) (hok : (s.setImpl position block).1 = Except.ok changed) :
      Reachable (s.setImpl position block).2.1

/-- The state of the table after a successful `ensure_block_index` inside
the general branch of `set_impl`: the invariant, weakened at the newly
ensured index (whose count has not yet been incremented), plus the facts
the tail of `set_impl` needs about the old and new indices. -/
structure EnsureMid (s1 : Space) (b : Block) (newIdx oldIdx ci : Nat) : Prop where
  lenOk : contentsLengthOk s1
  range : contentsInRange s1
  counts : countsExact s1
  fwd : forwardMapped s1
  back : ∀ b' j, mapGet s1.blockToIndex b' = some j →
    j < s1.blockData.length ∧ (bdGet s1.blockData j).block = b' ∧
      (0 < (bdGet s1.blockData j).count ∨ j = newIdx)
  newLt : newIdx < s1.blockData.length
  newBlock : (bdGet s1.blockData newIdx).block = b
  newMapped : mapGet s1.blockToIndex b = some newIdx
  neOld : newIdx ≠ oldIdx
  oldLt : oldIdx < s1.blockData.length
  oldBlockNe : (bdGet s1.blockData oldIdx).block ≠ b
  oldMapped : mapGet s1.blockToIndex (bdGet s1.blockData oldIdx).block = some oldIdx
  ciLt : ci < s1.contents.length
  ciVal : s1.contents.getD ci 0 = oldIdx
  oldCountPos : 0 < (bdGet s1.blockData oldIdx).count

/-! ### Concrete data used by the witnesses -/

/-- A 2x1x1 grid. -/
def wGrid : Grid := ⟨⟨0, 0, 0⟩, ⟨2, 1, 1⟩⟩

/-- A freshly built space on `wGrid`. -/
def wSpace0 : Space := Space.build wGrid (LightPhysics.rays 30)

/-- A transparent atom block. -/
def wBlockA : Block := Block.atom 1 false false

/-- An opaque atom block. -/
def wBlockB : Block := Block.atom 2 true false

/-- `wSpace0` after one successful `set` of `wBlockA` at the origin. -/
def wSpace1 : Space := (wSpace0.setImpl ⟨0, 0, 0⟩ wBlockA).2.1

/-- A trivial light pass reporting five updates and an empty queue. -/
def wPass : Space → Space × LightUpdatesInfo := fun s => (s, ⟨5, 0, 0⟩)

/-- The info `wPass` reports. -/
def wInfo : LightUpdatesInfo := ⟨5, 0, 0⟩

/-! ## Association-list map lemmas -/

theorem mapGet_insert_self (m : List (Block × Nat)) (b : Block) (i : Nat) :
    mapGet (mapInsert m b i) b = some i := by
  induction m with
  | nil => simp [mapInsert, mapGet]
  | cons e t ih =>
    by_cases h : e.1 = b
    · simp [mapInsert, mapGet, h]
    · simp [mapInsert, mapGet, h, ih]

theorem mapGet_insert_ne (m : List (Block × Nat)) {b b' : Block} (i : Nat) (h : b' ≠ b) :
    mapGet (mapInsert m b i) b' = mapGet m b' := by
  induction m with
  | nil => simp [mapInsert, mapGet, Ne.symm h]
  | cons e t ih =>
    by_cases he : e.1 = b
    · simp [mapInsert, mapGet, he, Ne.symm h]
    · by_cases hb : e.1 = b'
      · simp [mapInsert, mapGet, he, hb, h]
      · simp [mapInsert, mapGet, he, hb, ih]

theorem mapGet_remove_self (m : List (Block × Nat)) (b : Block) :
    mapGet (mapRemove m b) b = none := by
  induction m with
  | nil => simp [mapRemove, mapGet]
  | cons e t ih =>
    by_cases h : e.1 = b
    · simp [mapRemove, h, ih]
    · simp [mapRemove, mapGet, h, ih]

theorem mapGet_remove_ne (m : List (Block × Nat)) {b b' : Block} (h : b' ≠ b) :
    mapGet (mapRemove m b) b' = mapGet m b' := by
  induction m with
  | nil => simp [mapRemove]
  | cons e t ih =>
    by_cases he : e.1 = b
    · simp [mapRemove, mapGet, he, Ne.symm h, ih]
    · by_cases hb : e.1 = b'
      · simp [mapRemove, mapGet, he, hb, h]
      · simp [mapRemove, mapGet, he, hb, ih]

/-! ## Table-read lemmas -/

theorem bdGet_set_self (bd : List SpaceBlockData) {i : Nat} (d : SpaceBlockData)
    (h : i < bd.length) : bdGet (bd.set i d) i = d := by
  simp [bdGet, List.getD_eq_getElem?_getD, List.getElem?_set, h]

theorem bdGet_set_ne (bd : List SpaceBlockData) {i j : Nat} (d : SpaceBlockData)
    (h : i ≠ j) : bdGet (bd.set i d) j = bdGet bd j := by
  simp [bdGet, List.getD_eq_getElem?_getD, List.getElem?_set, h]

theorem bdGet_append_left (bd : List SpaceBlockData) (d : SpaceBlockData) {j : Nat}
    (h : j < bd.length) : bdGet (bd ++ [d]) j = bdGet bd j := by
  simp [bdGet, List.getD_eq_getElem?_getD, List.getElem?_append, h]

theorem bdGet_append_self (bd : List SpaceBlockData) (d : SpaceBlockData) :
    bdGet (bd ++ [d]) bd.length = d := by
  simp [bdGet, List.getD_eq_getElem?_getD, List.getElem?_append]

theorem bdGet_of_length_le (bd : List SpaceBlockData) {j : Nat} (h : bd.length ≤ j) :
    bdGet bd j = SpaceBlockData.NOTHING := by
  simp [bdGet, List.getD_eq_getElem?_getD, List.getElem?_eq_none h]

/-- Element-count change of a single in-bounds list write. -/
theorem count_set_nat (l : List Nat) {n : Nat} (h : n < l.length) (v x : Nat) :
    (l.set n v).count x =
      l.count x - (if l.getD n 0 = x then 1 else 0) + (if v = x then 1 else 0) := by
  have h2 : l.getD n 0 = l[n] := by
    simp [List.getD_eq_getElem?_getD, List.getElem?_eq_getElem h]
  rw [h2]
  simpa [beq_iff_eq] using List.count_set v x l n h

theorem getD_set_self_nat (l : List Nat) {n : Nat} (v : Nat) (h : n < l.length) :
    (l.set n v).getD n 0 = v := by
  simp [List.getD_eq_getElem?_getD, List.getElem?_set, h]

theorem getD_mem_nat (l : List Nat) {n : Nat} (h : n < l.length) : l.getD n 0 ∈ l := by
  have h2 : l.getD n 0 = l[n] := by
    simp [List.getD_eq_getElem?_getD, List.getElem?_eq_getElem h]
  rw [h2]; exact List.getElem_mem h

/-! ## Frame lemmas: side effects touch only lighting bookkeeping -/

theorem foldl_frame {α β : Type} (proj : Space → β) (f : Space → α → Space)
    (hf : ∀ a x, proj (f a x) = proj a) :
    ∀ (l : List α) (acc : Space), proj (l.foldl f acc) = proj acc := by
  intro l
  induction l with
  | nil => intro acc; rfl
  | cons x t ih => intro acc; rw [List.foldl_cons, ih, hf]

/-- A projection unchanged by the neighbor light step, by the record
update step, and by `lightNeedsUpdate`, together with proofs for the four
projections that matter to the table invariant. -/
theorem neighborLightStep_proj {β : Type} (proj : Space → β)
    (hp : ∀ t q, proj { t with lightUpdateQueue := q } = proj t)
    (pos : GridPoint) (a : Space) (x : GridVector) :
    proj (Space.neighborLightStep pos a x) = proj a := by
  unfold Space.neighborLightStep Space.lightNeedsUpdate
  split
  · exact hp a _
  · rfl

theorem recordTickInterest_proj {β : Type} (proj : Space → β)
    (hc : ∀ t cw, proj { t with cubesWantingTicks := cw } = proj t)
    (s : Space) (ev : EvaluatedBlock) (p : GridPoint) :
    proj (s.recordTickInterest ev p) = proj s := by
  unfold Space.recordTickInterest
  split
  · exact hc s _
  · rfl

theorem lightingEffects_proj {β : Type} (proj : Space → β)
    (hq : ∀ t q, proj { t with lightUpdateQueue := q } = proj t)
    (hl : ∀ t lt, proj { t with lighting := lt } = proj t)
    (s1 : Space) (ev : EvaluatedBlock) (p : GridPoint) (ci : Nat) :
    proj (s1.lightingEffects ev p ci).1 = proj s1 := by
  unfold Space.lightingEffects
  split
  · dsimp only
    split
    · dsimp only
      rw [foldl_frame proj _ (neighborLightStep_proj proj hq p)]
      exact hl s1 _
    · dsimp only
      rw [foldl_frame proj _ (neighborLightStep_proj proj hq p)]
      exact hq s1 _
  · rfl

theorem sideEffects_proj {β : Type} (proj : Space → β)
    (hq : ∀ t q, proj { t with lightUpdateQueue := q } = proj t)
    (hl : ∀ t lt, proj { t with lighting := lt } = proj t)
    (hc : ∀ t cw, proj { t with cubesWantingTicks := cw } = proj t)
    (s : Space) (i : Nat) (p : GridPoint) (ci : Nat) :
    proj (s.sideEffectsOfSet i p ci).1 = proj s := by
  unfold Space.sideEffectsOfSet
  dsimp only
  rw [lightingEffects_proj proj hq hl, recordTickInterest_proj proj hc]

theorem sideEffects_frame (s : Space) (i : Nat) (p : GridPoint) (ci : Nat) :
    (s.sideEffectsOfSet i p ci).1.grid = s.grid ∧
    (s.sideEffectsOfSet i p ci).1.blockToIndex = s.blockToIndex ∧
    (s.sideEffectsOfSet i p ci).1.blockData = s.blockData ∧
    (s.sideEffectsOfSet i p ci).1.contents = s.contents :=
  ⟨sideEffects_proj Space.grid (fun _ _ => rfl) (fun _ _ => rfl) (fun _ _ => rfl) s i p ci,
    sideEffects_proj (fun t => t.blockToIndex) (fun _ _ => rfl) (fun _ _ => rfl)
      (fun _ _ => rfl) s i p ci,
    sideEffects_proj (fun t => t.blockData) (fun _ _ => rfl) (fun _ _ => rfl)
      (fun _ _ => rfl) s i p ci,
    sideEffects_proj (fun t => t.contents) (fun _ _ => rfl) (fun _ _ => rfl)
      (fun _ _ => rfl) s i p ci⟩

theorem decrementOld_contents (s1 : Space) (i : Nat) :
    (s1.decrementOld i).contents = s1.contents := by
  unfold Space.decrementOld
  dsimp only
  split <;> rfl

theorem decrementOld_grid (s1 : Space) (i : Nat) :
    (s1.decrementOld i).grid = s1.grid := by
  unfold Space.decrementOld
  dsimp only
  split <;> rfl

theorem incrementNew_contents (s2 : Space) (i : Nat) :
    (s2.incrementNew i).contents = s2.contents := rfl

theorem incrementNew_grid (s2 : Space) (i : Nat) :
    (s2.incrementNew i).grid = s2.grid := rfl

theorem bdGet_cons_zero (d : SpaceBlockData) (rest : List SpaceBlockData) :
    bdGet (d :: rest) 0 = d := rfl

theorem bdGet_cons_succ (d : SpaceBlockData) (rest : List SpaceBlockData) (j : Nat) :
    bdGet (d :: rest) (j + 1) = bdGet rest j := rfl

theorem SpaceBlockData.new_ok {b : Block} {ev : EvaluatedBlock}
    (hev : b.evaluate = Except.ok ev) :
    SpaceBlockData.new b = Except.ok ⟨b, 0, ev⟩ := by
  unfold SpaceBlockData.new
  rw [hev]

theorem SpaceBlockData.new_error_eval {b : Block} {e : SetCubeError}
    (h : SpaceBlockData.new b = Except.error e) :
    ∃ e', e = SetCubeError.evalBlock e' := by
  unfold SpaceBlockData.new at h
  cases hb : b.evaluate with
  | error e' => rw [hb] at h; exact ⟨e', (Except.error.inj h).symm⟩
  | ok ev => rw [hb] at h; exact absurd h (by simp)

/-! ## `findFreeIndex` specification -/

theorem findFreeIndex_some (bd : List SpaceBlockData) :
    ∀ {k : Nat}, findFreeIndex bd = some k →
      k < bd.length ∧ (bdGet bd k).count = 0 ∧ ∀ j < k, (bdGet bd j).count ≠ 0 := by
  induction bd with
  | nil => intro k h; exact absurd h (by simp [findFreeIndex])
  | cons d rest ih =>
    intro k h
    unfold findFreeIndex at h
    by_cases hd : d.count = 0
    · rw [if_pos hd] at h
      cases h
      exact ⟨Nat.succ_pos _, hd, fun j hj => absurd hj (Nat.not_lt_zero j)⟩
    · rw [if_neg hd] at h
      obtain ⟨k', hk', rfl⟩ := Option.map_eq_some'.mp h
      obtain ⟨h1, h2, h3⟩ := ih hk'
      refine ⟨by simpa using Nat.succ_lt_succ h1, by rw [bdGet_cons_succ]; exact h2, ?_⟩
      intro j hj
      cases j with
      | zero => rw [bdGet_cons_zero]; exact hd
      | succ j' => rw [bdGet_cons_succ]; exact h3 j' (by omega)

theorem findFreeIndex_none (bd : List SpaceBlockData) :
    findFreeIndex bd = none ↔ ∀ j < bd.length, (bdGet bd j).count ≠ 0 := by
  induction bd with
  | nil => simp [findFreeIndex]
  | cons d rest ih =>
    unfold findFreeIndex
    by_cases hd : d.count = 0
    · rw [if_pos hd]
      simp only [iff_false_intro (by simp : ¬(some 0 = none)), false_iff]
      intro hall
      exact hall 0 (Nat.succ_pos _) hd
    · rw [if_neg hd]
      constructor
      · intro h j hj
        have hn : findFreeIndex rest = none := by
          cases hfr : findFreeIndex rest with
          | none => rfl
          | some k => rw [hfr] at h; exact absurd h (by simp)
        cases j with
        | zero => exact hd
        | succ j' => rw [bdGet_cons_succ]; exact (ih.mp hn) j' (by simpa using hj)
      · intro hall
        have : ∀ j < rest.length, (bdGet rest j).count ≠ 0 := by
          intro j hj
          have := hall (j + 1) (by simpa using Nat.succ_lt_succ hj)
          rwa [bdGet_cons_succ] at this
        rw [ih.mpr this]
        rfl

/-! ## Claim C5: strong exception safety of `set` -/

/-- C5: whenever `set` returns an error (out-of-bounds, block-evaluation
failure, or index exhaustion), the state is exactly as before the call
and no notification is emitted. -/
theorem set_strong_exception_safety (s : Space) (p : GridPoint) (b : Block)
    (e : SetCubeError) (s2 : Space) (ns : List SpaceChange)
    (h : s.setImpl p b = (Except.error e, s2, ns)) : s2 = s ∧ ns = [] := by
  unfold Space.setImpl at h
  cases hidx : s.grid.index p with
  | none =>
    rw [hidx] at h
    exact ⟨congrArg (fun r => r.2.1) h.symm, congrArg (fun r => r.2.2) h.symm⟩
  | some ci =>
    rw [hidx] at h
    dsimp only at h
    by_cases h1 : (bdGet s.blockData (s.contents.getD ci 0)).block = b
    · rw [if_pos h1] at h; exact absurd (congrArg (fun r => r.1) h) (by simp)
    · rw [if_neg h1] at h
      by_cases h2 : (bdGet s.blockData (s.contents.getD ci 0)).count = 1
          ∧ mapGet s.blockToIndex b = none
      · rw [if_pos h2] at h
        cases hnd : SpaceBlockData.new b with
        | error e' =>
          rw [hnd] at h
          exact ⟨congrArg (fun r => r.2.1) h.symm, congrArg (fun r => r.2.2) h.symm⟩
        | ok nd =>
          rw [hnd] at h
          exact absurd (congrArg (fun r => r.1) h) (by simp)
      · rw [if_neg h2] at h
        cases hens : s.ensureBlockIndex b with
        | error e' =>
          rw [hens] at h
          exact ⟨congrArg (fun r => r.2.1) h.symm, congrArg (fun r => r.2.2) h.symm⟩
        | ok v =>
          rw [hens] at h
          exact absurd (congrArg (fun r => r.1) h) (by simp)

/-! ## Claim C7: `set` with an equal block is a complete no-op -/

/-- C7: if the in-bounds cell already holds a block equal to the argument,
`set` returns `Ok(false)`, emits no notification, and leaves the entire
state (contents, block table, reverse map, lighting, light queue, and all
other fields) unchanged. -/
theorem set_noop_on_equal_block (s : Space) (p : GridPoint) (b : Block) (ci : Nat)
    (hidx : s.grid.index p = some ci)
    (heq : (bdGet s.blockData (s.contents.getD ci 0)).block = b) :
    s.setImpl p b = (Except.ok false, s, []) := by
  unfold Space.setImpl
  rw [hidx]
  dsimp only
  rw [if_pos heq]

/-! ## Claim C2: in-place replace stability -/

/-- C2: if the in-bounds cell's current index `i` has count exactly 1 and
the current block differs from the new one, then: replacing with a block
value not mapped by any existing index (and which evaluates successfully)
succeeds without touching the contents array at all, so the cell keeps
index `i`; replacing with a block value already mapped at some index `j`
succeeds and reassigns the cell to `j`. -/
theorem set_inplace_replace_stability (s : Space) (p : GridPoint) (b : Block)
    (ci i : Nat)
    (hidx : s.grid.index p = some ci)
    (hlen : ci < s.contents.length)
    (hval : s.contents.getD ci 0 = i)
    (hcount : (bdGet s.blockData i).count = 1)
    (hne : (bdGet s.blockData i).block ≠ b) :
    (∀ ev : EvaluatedBlock, mapGet s.blockToIndex b = none → b.evaluate = Except.ok ev →
      (s.setImpl p b).1 = Except.ok true ∧
      (s.setImpl p b).2.1.contents = s.contents ∧
      (s.setImpl p b).2.1.contents.getD ci 0 = i) ∧
    (∀ j : Nat, mapGet s.blockToIndex b = some j →
      (s.setImpl p b).1 = Except.ok true ∧
      (s.setImpl p b).2.1.contents.getD ci 0 = j) := by
  constructor
  · intro ev hnone hev
    have heval : s.setImpl p b =
        (Except.ok true,
          (({ s with
              blockData := s.blockData.set i { block := b, count := 1, evaluated := ev },
              blockToIndex :=
                mapInsert (mapRemove s.blockToIndex (bdGet s.blockData i).block) b i
            } : Space).sideEffectsOfSet i p ci).1,
          SpaceChange.number i ::
            (({ s with
                blockData := s.blockData.set i { block := b, count := 1, evaluated := ev },
                blockToIndex :=
                  mapInsert (mapRemove s.blockToIndex (bdGet s.blockData i).block) b i
              } : Space).sideEffectsOfSet i p ci).2) := by
      unfold Space.setImpl
      rw [hidx]
      dsimp only
      rw [hval, if_neg hne, if_pos ⟨hcount, hnone⟩, SpaceBlockData.new_ok hev]
    refine ⟨by rw [heval], ?_, ?_⟩
    · rw [heval]
      exact (sideEffects_frame _ i p ci).2.2.2
    · rw [heval]
      rw [(sideEffects_frame _ i p ci).2.2.2]
      exact hval
  · intro j hsome
    have hens : s.ensureBlockIndex b = Except.ok (j, s, []) := by
      unfold Space.ensureBlockIndex
      rw [hsome]
    have hnotand : ¬((bdGet s.blockData i).count = 1 ∧ mapGet s.blockToIndex b = none) := by
      intro hand
      rw [hsome] at hand
      exact absurd hand.2 (by simp)
    have heval : s.setImpl p b =
        (Except.ok true,
          (({ ((s.decrementOld i).incrementNew j) with
              contents := ((s.decrementOld i).incrementNew j).contents.set ci j } :
              Space).sideEffectsOfSet j p ci).1,
          [] ++
            (({ ((s.decrementOld i).incrementNew j) with
                contents := ((s.decrementOld i).incrementNew j).contents.set ci j } :
                Space).sideEffectsOfSet j p ci).2) := by
      unfold Space.setImpl
      rw [hidx]
      dsimp only
      rw [hval, if_neg hne, if_neg hnotand, hens]
    rw [heval]
    refine ⟨rfl, ?_⟩
    dsimp only
    rw [(sideEffects_frame _ j p ci).2.2.2]
    dsimp only
    rw [incrementNew_contents, decrementOld_contents]
    exact getD_set_self_nat s.contents j hlen

/-! ## Claim C10: whole-grid `fill_uniform` frame property -/

/-- C10: filling the entire grid with a block that evaluates successfully
replaces the block table and all contents wholesale, emits exactly one
`EveryBlock` notification (no per-cell `Block` or `Lighting`
notifications), and leaves the lighting array and the light-update queue
exactly unchanged. -/
theorem fill_uniform_whole_grid_frame (s : Space) (b : Block) (ev : EvaluatedBlock)
    (hev : b.evaluate = Except.ok ev) :
    s.fillUniform s.grid b =
      (Except.ok (),
        { s with
          blockToIndex := [(b, 0)],
          blockData := [{ block := b, count := s.grid.volume, evaluated := ev }],
          contents := List.replicate s.contents.length 0 },
        [SpaceChange.everyBlock]) ∧
    (s.fillUniform s.grid b).2.1.lighting = s.lighting ∧
    (s.fillUniform s.grid b).2.1.lightUpdateQueue = s.lightUpdateQueue := by
  have hc : s.grid.containsGrid s.grid = true := by
    simp [Grid.containsGrid]
  have heval : s.fillUniform s.grid b =
      (Except.ok (),
        { s with
          blockToIndex := [(b, 0)],
          blockData := [{ block := b, count := s.grid.volume, evaluated := ev }],
          contents := List.replicate s.contents.length 0 },
        [SpaceChange.everyBlock]) := by
    unfold Space.fillUniform
    rw [SpaceBlockData.new_ok hev]
    simp [hc]
  exact ⟨heval, by rw [heval], by rw [heval]⟩

/-! ## Claim C8: index allocation and exhaustion -/

/-- C8: for a block value not already mapped, `ensure_block_index` reuses
the lowest-numbered tombstoned (count 0) slot if one exists, otherwise
appends a fresh index at the end of the table, and it fails with
`TooManyBlocks` exactly when no tombstoned slot exists and the table has
reached the 16-bit index bound. -/
theorem ensure_block_index_allocation (s : Space) (b : Block)
    (hb : mapGet s.blockToIndex b = none) :
    (findFreeIndex s.blockData = none ↔
      ∀ j < s.blockData.length, (bdGet s.blockData j).count ≠ 0) ∧
    (∀ k, findFreeIndex s.blockData = some k →
      (bdGet s.blockData k).count = 0 ∧ (∀ j < k, (bdGet s.blockData j).count ≠ 0) ∧
      ∀ nd, SpaceBlockData.new b = Except.ok nd →
        s.ensureBlockIndex b = Except.ok (k,
          { s with
            blockData := s.blockData.set k nd,
            blockToIndex := mapInsert s.blockToIndex b k },
          [SpaceChange.number k])) ∧
    (findFreeIndex s.blockData = none → s.blockData.length < 65535 →
      ∀ nd, SpaceBlockData.new b = Except.ok nd →
        s.ensureBlockIndex b = Except.ok (s.blockData.length,
          { s with
            blockData := s.blockData ++ [nd],
            blockToIndex := mapInsert s.blockToIndex b s.blockData.length },
          [SpaceChange.number s.blockData.length])) ∧
    (s.ensureBlockIndex b = Except.error SetCubeError.tooManyBlocks ↔
      findFreeIndex s.blockData = none ∧ 65535 ≤ s.blockData.length) := by
  refine ⟨findFreeIndex_none s.blockData, ?_, ?_, ?_⟩
  · intro k hk
    obtain ⟨_, h2, h3⟩ := findFreeIndex_some s.blockData hk
    refine ⟨h2, h3, ?_⟩
    intro nd hnd
    unfold Space.ensureBlockIndex
    rw [hb, hk, hnd]
  · intro hnone hlt nd hnd
    unfold Space.ensureBlockIndex
    rw [hb, hnone, if_neg (by omega), hnd]
  · constructor
    · intro h
      unfold Space.ensureBlockIndex at h
      rw [hb] at h
      cases hfr : findFreeIndex s.blockData with
      | some k =>
        rw [hfr] at h
        cases hnd : SpaceBlockData.new b with
        | error e =>
          rw [hnd] at h
          obtain ⟨e', rfl⟩ := SpaceBlockData.new_error_eval hnd
          exact absurd (Except.error.inj h) (by simp)
        | ok nd => rw [hnd] at h; exact absurd h (by simp)
      | none =>
        rw [hfr] at h
        by_cases hge : s.blockData.length ≥ 65535
        · exact ⟨rfl, hge⟩
        · rw [if_neg hge] at h
          cases hnd : SpaceBlockData.new b with
          | error e =>
            rw [hnd] at h
            obtain ⟨e', rfl⟩ := SpaceBlockData.new_error_eval hnd
            exact absurd (Except.error.inj h) (by simp)
          | ok nd => rw [hnd] at h; exact absurd h (by simp)
    · intro ⟨hnone, hge⟩
      unfold Space.ensureBlockIndex
      rw [hb, hnone, if_pos hge]

/-! ## Claim C6: `evaluate_light` loop behavior -/

/-- C6: whenever the `evaluate_light` loop terminates (returning
`some`), the list of infos handed to the progress callback is exactly
one per executed pass, in order and with that pass's counts; the loop
stops exactly at the first pass whose remaining queue is empty or whose
highest remaining priority is at most `epsilon` (every earlier pass
fails that condition, the last satisfies it); and the returned total is
the sum of the per-pass update counts. -/
theorem evaluate_light_loop_spec (pass : Space → Space × LightUpdatesInfo) (eps : Nat) :
    ∀ (fuel : Nat) (s : Space) (total : Nat) (infos : List LightUpdatesInfo) (sf : Space),
      evaluateLightLoop pass eps fuel s = some (total, infos, sf) →
      0 < infos.length ∧
      (∀ k, k < infos.length → infos.getD k ⟨0, 0, 0⟩ = (pass (passIterate pass k s)).2) ∧
      sf = passIterate pass infos.length s ∧
      total = (infos.map (fun i => i.updateCount)).sum ∧
      (∀ k, k + 1 < infos.length →
        ¬((infos.getD k ⟨0, 0, 0⟩).queueCount = 0 ∨
          (infos.getD k ⟨0, 0, 0⟩).maxQueuePriority ≤ eps)) ∧
      ((infos.getD (infos.length - 1) ⟨0, 0, 0⟩).queueCount = 0 ∨
        (infos.getD (infos.length - 1) ⟨0, 0, 0⟩).maxQueuePriority ≤ eps) := by
  intro fuel
  induction fuel with
  | zero => intro s total infos sf h; exact absurd h (by simp [evaluateLightLoop])
  | succ fuel ih =>
    intro s total infos sf h
    unfold evaluateLightLoop at h
    dsimp only at h
    by_cases hstop : (pass s).2.queueCount = 0 ∨ (pass s).2.maxQueuePriority ≤ eps
    · rw [if_pos hstop] at h
      obtain ⟨rfl, rfl, rfl⟩ : total = (pass s).2.updateCount ∧ infos = [(pass s).2]
          ∧ sf = (pass s).1 := by
        have h1 := congrArg (fun r => (r.map Prod.fst)) h
        have h2 := congrArg (fun r => (r.map (fun x => x.2.1))) h
        have h3 := congrArg (fun r => (r.map (fun x => x.2.2))) h
        simp at h1 h2 h3
        exact ⟨h1.symm, h2.symm, h3.symm⟩
      refine ⟨by simp, ?_, ?_, by simp, ?_, ?_⟩
      · intro k hk
        have hk0 : k = 0 := by simpa using hk
        subst hk0
        rfl
      · rfl
      · intro k hk
        exact absurd hk (by simp)
      · simpa using hstop
    · rw [if_neg hstop] at h
      cases hrec : evaluateLightLoop pass eps fuel (pass s).1 with
      | none => rw [hrec] at h; exact absurd h (by simp)
      | some v =>
        obtain ⟨t, infos', sf'⟩ := v
        rw [hrec] at h
        obtain ⟨rfl, rfl, rfl⟩ : total = (pass s).2.updateCount + t
            ∧ infos = (pass s).2 :: infos' ∧ sf = sf' := by
          have h1 := congrArg (fun r => (r.map Prod.fst)) h
          have h2 := congrArg (fun r => (r.map (fun x => x.2.1))) h
          have h3 := congrArg (fun r => (r.map (fun x => x.2.2))) h
          simp at h1 h2 h3
          exact ⟨h1.symm, h2.symm, h3.symm⟩
        obtain ⟨ih1, ih2, ih3, ih4, ih5, ih6⟩ := ih (pass s).1 t infos' sf hrec
        have hiter : ∀ k : Nat, passIterate pass k (pass s).1 = passIterate pass (k + 1) s := by
          intro k
          unfold passIterate
          rw [Function.iterate_succ_apply]
        refine ⟨by simp, ?_, ?_, by simp [ih4], ?_, ?_⟩
        · intro k hk
          cases k with
          | zero => rfl
          | succ k' =>
            rw [List.getD_cons_succ]
            rw [ih2 k' (by simpa using hk), hiter k']
        · rw [List.length_cons, ih3, ← hiter]
        · intro k hk
          cases k with
          | zero => simpa using hstop
          | succ k' =>
            rw [List.getD_cons_succ]
            exact ih5 k' (by simpa using hk)
        · have hlen : infos'.length - 1 + 1 = infos'.length := by omega
          rw [List.length_cons]
          have : ((pass s).2 :: infos').getD (infos'.length + 1 - 1) ⟨0, 0, 0⟩ =
              infos'.getD (infos'.length - 1) ⟨0, 0, 0⟩ := by
            rw [show infos'.length + 1 - 1 = (infos'.length - 1) + 1 by omega,
              List.getD_cons_succ]
          rw [this]
          exact ih6

/-! ## Chunking lemmas -/

theorem ratFloor_eq (q : ℚ) : ratFloor q = ⌊q⌋ := by
  unfold ratFloor
  exact Rat.floor_def.symm

theorem ratCeil_eq (q : ℚ) : ratCeil q = ⌈q⌉ := by
  unfold ratCeil
  rw [ratFloor_eq, Int.floor_neg, neg_neg]

theorem chartDistanceSquared_nonneg (d : ℚ) : 0 ≤ chartDistanceSquared d := by
  unfold chartDistanceSquared
  rw [ratCeil_eq]
  exact Int.ceil_nonneg (by positivity)

theorem chartDistanceSquared_zero : chartDistanceSquared 0 = 0 := by
  unfold chartDistanceSquared sanitizeDistance CHUNK_SIZE_FREE
  rw [ratCeil_eq]
  norm_num

theorem chartDistanceSquared_small {ε : ℚ} (h0 : 0 < ε) (h16 : ε ≤ 16) :
    chartDistanceSquared ε = 1 := by
  unfold chartDistanceSquared sanitizeDistance CHUNK_SIZE_FREE
  rw [ratCeil_eq, max_eq_left h0.le]
  refine Int.ceil_eq_iff.mpr ⟨?_, ?_⟩
  · push_cast
    have hp : (0 : ℚ) < ε / 16 := by positivity
    have := pow_pos hp 2
    linarith
  · push_cast
    have h1 : ε / 16 ≤ 1 := (div_le_one (by norm_num)).mpr h16
    have h2 : (0 : ℚ) ≤ ε / 16 := by positivity
    exact pow_le_one₀ h2 h1

theorem mem_intRange {a : Int} {n : Nat} {x : Int} :
    x ∈ intRange a n ↔ a ≤ x ∧ x < a + n := by
  unfold intRange
  constructor
  · intro hx
    obtain ⟨i, hi, hie⟩ := List.mem_map.mp hx
    have hi2 : i < n := List.mem_range.mp hi
    omega
  · intro h
    exact List.mem_map.mpr ⟨(x - a).toNat, List.mem_range.mpr (by omega), by omega⟩

theorem mem_interiorIter {g : Grid} {p : GridPoint} :
    p ∈ g.interiorIter ↔
      (g.lowerBounds.x ≤ p.x ∧ p.x < g.lowerBounds.x + (g.sizes.x.toNat : Int)) ∧
      (g.lowerBounds.y ≤ p.y ∧ p.y < g.lowerBounds.y + (g.sizes.y.toNat : Int)) ∧
      (g.lowerBounds.z ≤ p.z ∧ p.z < g.lowerBounds.z + (g.sizes.z.toNat : Int)) := by
  unfold Grid.interiorIter
  simp only [List.mem_flatMap, List.mem_map]
  constructor
  · rintro ⟨px, hpx, py, hpy, pz, hpz, rfl⟩
    rw [mem_intRange] at hpx hpy hpz
    exact ⟨hpx, hpy, hpz⟩
  · rintro ⟨hx, hy, hz⟩
    exact ⟨p.x, mem_intRange.mpr hx, p.y, mem_intRange.mpr hy, p.z, mem_intRange.mpr hz, rfl⟩

theorem mem_octantChunksFor {ds : Int} (hds : 0 ≤ ds) {v : GridVector} :
    v ∈ octantChunksFor ds ↔
      (0 ≤ v.x ∧ v.x ≤ ds ∧ 0 ≤ v.y ∧ v.y ≤ ds ∧ 0 ≤ v.z ∧ v.z ≤ ds) ∧
      chunkFilter ds v = true := by
  unfold octantChunksFor
  rw [(List.perm_insertionSort sortKeyLE _).mem_iff, List.mem_filter, mem_interiorIter]
  have ht : ((ds + 1).toNat : Int) = ds + 1 := Int.toNat_of_nonneg (by omega)
  dsimp only
  rw [ht]
  constructor
  · rintro ⟨⟨hx, hy, hz⟩, hf⟩
    exact ⟨by omega, hf⟩
  · rintro ⟨⟨hx1, hx2, hy1, hy2, hz1, hz2⟩, hf⟩
    exact ⟨⟨by omega, by omega, by omega⟩, hf⟩

theorem octantChunksFor_sorted (ds : Int) :
    List.Pairwise sortKeyLE (octantChunksFor ds) :=
  List.sorted_insertionSort sortKeyLE _

/-! ## Claim C3 (corrected): chunk chart construction -/

/-- C3's counterexample: at view distance `0.0` the computed
`distance_squared` is `0`; the spec's enumeration (coordinates in
`0..=sqrt(distance_squared)+1 = 0..=1`) retains the offset `(1,1,1)`
(it passes the farthest-corner filter), but the code — which enumerates
coordinates only up to `distance_squared = 0` — does not produce it. -/
theorem chunk_chart_spec_range_counterexample :
    chartDistanceSquared 0 = 0 ∧
    specRetainedMember 0 ⟨1, 1, 1⟩ = true ∧
    (⟨1, 1, 1⟩ : GridVector) ∉ (ChunkChart.new 0).octantChunks := by
  refine ⟨chartDistanceSquared_zero, by decide, ?_⟩
  show (⟨1, 1, 1⟩ : GridVector) ∉ octantChunksFor (chartDistanceSquared 0)
  rw [chartDistanceSquared_zero]
  decide

/-- C3 as amended: for every view distance (ℚ model of the finite
floats; negative distances are clamped by `sanitize_distance`),
`ChunkChart::new` retains exactly the non-negative offsets with every
coordinate in `0..=distance_squared` that pass the farthest-corner
filter, and the retained list is sorted ascending by the key
`(squared magnitude, x, y, z)`. -/
theorem chunk_chart_construction_amended (d : ℚ) :
    (∀ v : GridVector,
      v ∈ (ChunkChart.new d).octantChunks ↔
        (0 ≤ v.x ∧ v.x ≤ chartDistanceSquared d ∧
          0 ≤ v.y ∧ v.y ≤ chartDistanceSquared d ∧
          0 ≤ v.z ∧ v.z ≤ chartDistanceSquared d) ∧
        chunkFilter (chartDistanceSquared d) v = true) ∧
    List.Pairwise sortKeyLE (ChunkChart.new d).octantChunks :=
  ⟨fun _ => mem_octantChunksFor (chartDistanceSquared_nonneg d),
    octantChunksFor_sorted _⟩

/-! ## Claim C9: reversal consistency of `chunks` -/

/-- C9: for every constructed chart and origin, collecting the forward
iteration and reversing it yields exactly the backward
(`DoubleEndedIterator`) iteration, and both visit the same set. -/
theorem chunk_chart_reversal_consistency (c : ChunkChart) (origin : ChunkPos) :
    (c.chunksList origin).reverse = c.chunksListBack origin ∧
    ∀ p, p ∈ c.chunksList origin ↔ p ∈ c.chunksListBack origin := by
  have hrev : ∀ (f : GridVector → GridVector),
      (fun v => (twoIterList (f v) v).reverse) = fun v => twoIterListBack (f v) v := by
    intro f
    funext v
    unfold twoIterList twoIterListBack
    split <;> rfl
  have h : (c.chunksList origin).reverse = c.chunksListBack origin := by
    unfold ChunkChart.chunksList ChunkChart.chunksListBack
    rw [← List.map_reverse]
    rw [List.reverse_flatMap, List.reverse_flatMap, List.reverse_flatMap]
    simp only [Function.comp_def]
    rw [hrev, hrev, hrev]
  refine ⟨h, fun p => ?_⟩
  rw [← h, List.mem_reverse]

/-! ## Claim C4: chunk chart boundary counts -/

/-- C4: for every origin, a zero view distance yields exactly the origin
chunk, and any sufficiently small positive view distance (at most one
chunk, i.e. `0 < ε ≤ 16`, which makes `distance_squared = 1`) yields
exactly the 27 chunk positions `origin + {-1,0,1}^3`, each exactly
once. -/
theorem chunk_chart_boundary_counts (origin : ChunkPos) :
    (ChunkChart.new 0).chunksList origin = [origin] ∧
    (∀ ε : ℚ, 0 < ε → ε ≤ 16 →
      ((ChunkChart.new ε).chunksList origin).Perm
        (neighborCube.map (fun v => ChunkPos.mk (origin.pos + v))) ∧
      ((ChunkChart.new ε).chunksList origin).Nodup) := by
  obtain ⟨⟨ox, oy, oz⟩⟩ := origin
  have hinj : Function.Injective
      (fun v : GridVector => ChunkPos.mk (GridPoint.mk ox oy oz + v)) := by
    intro v w hvw
    obtain ⟨vx, vy, vz⟩ := v
    obtain ⟨wx, wy, wz⟩ := w
    have h2 := congrArg (fun c : ChunkPos => c.pos) hvw
    simp only [GridPoint.add_def] at h2
    rw [GridPoint.mk.injEq] at h2
    simp only [GridPoint.mk.injEq]
    omega
  constructor
  · have hnew : ChunkChart.new 0 = ⟨sanitizeDistance 0, [⟨0, 0, 0⟩]⟩ := by
      unfold ChunkChart.new
      rw [chartDistanceSquared_zero]
      rfl
    rw [hnew]
    unfold ChunkChart.chunksList
    simp [twoIterList, GridPoint.add_def]
  · intro ε h0 h16
    have hnew : ChunkChart.new ε = ⟨sanitizeDistance ε, octantChunksFor 1⟩ := by
      unfold ChunkChart.new
      rw [chartDistanceSquared_small h0 h16]
    rw [hnew]
    unfold ChunkChart.chunksList
    dsimp only
    constructor
    · exact List.Perm.map _ (by decide)
    · exact List.Nodup.map hinj (by decide)

/-! ## The refcount invariant (Claim C1) -/

theorem Grid.index_lt_volume {g : Grid} {p : GridPoint} {ci : Nat}
    (h : g.index p = some ci) : ci < g.volume := by
  unfold Grid.index at h
  dsimp only at h
  split at h
  case isTrue hc =>
    obtain ⟨h1, h2, h3, h4, h5, h6⟩ := hc
    have hsx : 0 < g.sizes.x := lt_of_le_of_lt h1 h2
    have hsy : 0 < g.sizes.y := lt_of_le_of_lt h3 h4
    have hsz : 0 < g.sizes.z := lt_of_le_of_lt h5 h6
    have hci : ((p.x - g.lowerBounds.x) * g.sizes.y + (p.y - g.lowerBounds.y)) * g.sizes.z
        + (p.z - g.lowerBounds.z) = (ci : Int) := by
      have hh := Option.some.inj h
      rw [← hh]
      rw [Int.toNat_of_nonneg]
      exact add_nonneg
        (mul_nonneg (add_nonneg (mul_nonneg h1 hsy.le) h3) hsz.le) h5
    have hlt : (ci : Int) < g.sizes.x * g.sizes.y * g.sizes.z := by
      rw [← hci]
      have key1 : (p.x - g.lowerBounds.x) * g.sizes.y + (p.y - g.lowerBounds.y)
          ≤ g.sizes.x * g.sizes.y - 1 := by
        nlinarith [mul_le_mul_of_nonneg_right (show p.x - g.lowerBounds.x ≤ g.sizes.x - 1
          by omega) hsy.le]
      nlinarith [mul_le_mul_of_nonneg_right key1 hsz.le]
    unfold Grid.volume
    omega
  case isFalse => exact absurd h (by simp)

theorem build_inv (g : Grid) (lp : LightPhysics) : SpaceInv (Space.build g lp) := by
  unfold Space.build SpaceInv contentsLengthOk contentsInRange countsExact forwardMapped
    backMapped
  by_cases hv : g.volume > 0
  · simp only [hv, if_true, ite_true]
    refine ⟨by simp, ?_, ?_, ?_, ?_⟩
    · intro i hi
      have := List.eq_of_mem_replicate hi
      simp [this]
    · intro i hi
      have hi0 : i = 0 := by simpa using hi
      subst hi0
      simp [bdGet, List.count_replicate]
    · intro i hi _
      have hi0 : i = 0 := by simpa using hi
      subst hi0
      simp [bdGet, mapGet]
    · intro b j hj
      unfold mapGet at hj
      by_cases hb : Block.air = b
      · rw [if_pos hb] at hj
        cases hj
        exact ⟨by simp, by simp [bdGet, hb], by simp [bdGet]; omega⟩
      · rw [if_neg hb] at hj
        exact absurd hj (by simp [mapGet])
  · simp only [hv, if_false, ite_false]
    have hv0 : g.volume = 0 := by omega
    refine ⟨by simp [hv0], ?_, ?_, ?_, ?_⟩
    · intro i hi
      exact absurd hi (by simp [hv0])
    · intro i hi
      exact absurd hi (by simp)
    · intro i hi
      exact absurd hi (by simp)
    · intro b j hj
      exact absurd hj (by simp [mapGet])

theorem SpaceBlockData.new_ok_fields {b : Block} {nd : SpaceBlockData}
    (h : SpaceBlockData.new b = Except.ok nd) : nd.block = b ∧ nd.count = 0 := by
  unfold SpaceBlockData.new at h
  cases hb : b.evaluate with
  | error e => rw [hb] at h; exact absurd h (by simp)
  | ok ev =>
    rw [hb] at h
    rw [← Except.ok.inj h]
    exact ⟨rfl, rfl⟩

/-- The `Space` invariant depends only on the grid, the reverse map, the
table, and the contents. -/
theorem spaceInv_congr {t t' : Space} (hg : t'.grid = t.grid)
    (hm : t'.blockToIndex = t.blockToIndex) (hd : t'.blockData = t.blockData)
    (hc : t'.contents = t.contents) (h : SpaceInv t) : SpaceInv t' := by
  unfold SpaceInv contentsLengthOk contentsInRange countsExact forwardMapped backMapped at *
  rw [hg, hm, hd, hc]
  exact h

/-- Invariant preservation for the in-place-replace branch of
`set_impl`. -/
theorem inplace_inv (s : Space) (b : Block) {ci : Nat}
    (hinv : SpaceInv s) (hci : ci < s.contents.length)
    (hne : (bdGet s.blockData (s.contents.getD ci 0)).block ≠ b)
    (hcount : (bdGet s.blockData (s.contents.getD ci 0)).count = 1)
    (hnone : mapGet s.blockToIndex b = none)
    {nd : SpaceBlockData} (hnd : SpaceBlockData.new b = Except.ok nd) :
    SpaceInv
      { s with
        blockData := s.blockData.set (s.contents.getD ci 0) { nd with count := 1 },
        blockToIndex :=
          mapInsert
            (mapRemove s.blockToIndex (bdGet s.blockData (s.contents.getD ci 0)).block)
            b (s.contents.getD ci 0) } := by
  obtain ⟨hlen, hrange, hcounts, hfwd, hback⟩ := hinv
  obtain ⟨hndb, _⟩ := SpaceBlockData.new_ok_fields hnd
  set oldIdx := s.contents.getD ci 0 with hoi
  set oldBlock := (bdGet s.blockData oldIdx).block with hob
  have hmem : oldIdx ∈ s.contents := getD_mem_nat s.contents hci
  have holt : oldIdx < s.blockData.length := hrange oldIdx hmem
  have hcc : s.contents.count oldIdx = 1 := by rw [← hcounts oldIdx holt]; exact hcount
  have hOldMapped : mapGet s.blockToIndex oldBlock = some oldIdx :=
    hfwd oldIdx holt (by omega)
  refine ⟨hlen, ?_, ?_, ?_, ?_⟩
  · -- range
    intro i hi
    simpa using hrange i hi
  · -- counts
    intro i hi
    rw [List.length_set] at hi
    by_cases hio : i = oldIdx
    · subst hio
      rw [bdGet_set_self _ _ hi]
      exact hcc.symm
    · rw [bdGet_set_ne _ _ (fun hh => hio hh.symm)]
      exact hcounts i hi
  · -- forward
    intro i hi hpos
    rw [List.length_set] at hi
    by_cases hio : i = oldIdx
    · subst hio
      rw [bdGet_set_self _ _ hi]
      dsimp only
      rw [hndb]
      exact mapGet_insert_self _ b oldIdx
    · rw [bdGet_set_ne _ _ (fun hh => hio hh.symm)] at hpos ⊢
      have hfi := hfwd i hi hpos
      have hib : (bdGet s.blockData i).block ≠ b := by
        intro hh
        rw [hh] at hfi
        rw [hfi] at hnone
        exact absurd hnone (by simp)
      have hiob : (bdGet s.blockData i).block ≠ oldBlock := by
        intro hh
        rw [hh] at hfi
        rw [hfi] at hOldMapped
        exact hio (Option.some.inj hOldMapped)
      rw [mapGet_insert_ne _ _ hib, mapGet_remove_ne _ hiob]
      exact hfi
  · -- backward
    intro b' j hj
    by_cases hbb : b' = b
    · subst hbb
      rw [mapGet_insert_self] at hj
      cases hj
      refine ⟨by simpa using holt, ?_, ?_⟩
      · rw [bdGet_set_self _ _ holt]
        exact hndb
      · rw [bdGet_set_self _ _ holt]
        exact one_pos
    · rw [mapGet_insert_ne _ _ hbb] at hj
      by_cases hbo : b' = oldBlock
      · subst hbo
        rw [mapGet_remove_self] at hj
        exact absurd hj (by simp)
      · rw [mapGet_remove_ne _ hbo] at hj
        obtain ⟨hj1, hj2, hj3⟩ := hback b' j hj
        have hjo : j ≠ oldIdx := by
          intro hh
          subst hh
          exact hbo hj2.symm
        rw [bdGet_set_ne _ _ (fun hh => hjo hh.symm)]
        exact ⟨by simpa using hj1, hj2, hj3⟩

/-- A successful `ensure_block_index` in the general branch of `set_impl`
establishes the mid-state facts. -/
theorem ensure_mid {s : Space} {b : Block} {ci : Nat}
    (hinv : SpaceInv s) (hci : ci < s.contents.length)
    (hne : (bdGet s.blockData (s.contents.getD ci 0)).block ≠ b)
    {newIdx : Nat} {s1 : Space} {notes1 : List SpaceChange}
    (hens : s.ensureBlockIndex b = Except.ok (newIdx, s1, notes1)) :
    EnsureMid s1 b newIdx (s.contents.getD ci 0) ci := by
  obtain ⟨hlen, hrange, hcounts, hfwd, hback⟩ := hinv
  set oldIdx := s.contents.getD ci 0 with hoi
  have hmem : oldIdx ∈ s.contents := getD_mem_nat s.contents hci
  have holt : oldIdx < s.blockData.length := hrange oldIdx hmem
  have hopos : 0 < (bdGet s.blockData oldIdx).count := by
    rw [hcounts oldIdx holt]
    exact List.count_pos_iff.mpr hmem
  unfold Space.ensureBlockIndex at hens
  cases hmg : mapGet s.blockToIndex b with
  | some j =>
    rw [hmg] at hens
    have h := Except.ok.inj hens
    obtain ⟨h1, h2, h3⟩ : j = newIdx ∧ s = s1 ∧ ([] : List SpaceChange) = notes1 :=
      ⟨congrArg Prod.fst h, congrArg (fun x => x.2.1) h, congrArg (fun x => x.2.2) h⟩
    subst h1
    subst h2
    obtain ⟨hj1, hj2, hj3⟩ := hback b j hmg
    have hjo : j ≠ oldIdx := by
      intro hh
      rw [hh] at hj2
      exact hne hj2
    exact ⟨hlen, hrange, hcounts, hfwd,
      fun b' j' hj' => ⟨(hback b' j' hj').1, (hback b' j' hj').2.1,
        Or.inl (hback b' j' hj').2.2⟩,
      hj1, hj2, hmg, hjo, holt, hne, hfwd oldIdx holt hopos, hci, rfl, hopos⟩
  | none =>
    rw [hmg] at hens
    cases hfr : findFreeIndex s.blockData with
    | some k =>
      rw [hfr] at hens
      cases hnd : SpaceBlockData.new b with
      | error e => rw [hnd] at hens; exact absurd hens (by simp)
      | ok nd =>
        rw [hnd] at hens
        have h := Except.ok.inj hens
        obtain ⟨h1, h2, h3⟩ : k = newIdx ∧
            ({ s with
              blockData := s.blockData.set k nd,
              blockToIndex := mapInsert s.blockToIndex b k } : Space) = s1 ∧
            [SpaceChange.number k] = notes1 :=
          ⟨congrArg Prod.fst h, congrArg (fun x => x.2.1) h, congrArg (fun x => x.2.2) h⟩
        subst h1
        subst h2
        obtain ⟨hk1, hk2, hk3⟩ := findFreeIndex_some s.blockData hfr
        obtain ⟨hndb, hndc⟩ := SpaceBlockData.new_ok_fields hnd
        have hko : k ≠ oldIdx := by
          intro hh
          rw [hh] at hk2
          omega
        have hnotb : ∀ i, i < s.blockData.length → 0 < (bdGet s.blockData i).count →
            (bdGet s.blockData i).block ≠ b := by
          intro i hi hpos hh
          have hfi := hfwd i hi hpos
          rw [hh, hmg] at hfi
          exact absurd hfi (by simp)
        refine ⟨hlen, ?_, ?_, ?_, ?_, ?_, ?_, ?_, hko, ?_, ?_, ?_, hci, rfl, ?_⟩
        · intro i hi
          simpa using hrange i hi
        · intro i hi
          rw [List.length_set] at hi
          by_cases hik : i = k
          · subst hik
            rw [bdGet_set_self _ _ hi, hndc, ← hk2]
            exact (hcounts i hi).symm ▸ rfl
          · rw [bdGet_set_ne _ _ (fun hh => hik hh.symm)]
            exact hcounts i hi
        · intro i hi hpos
          rw [List.length_set] at hi
          by_cases hik : i = k
          · subst hik
            rw [bdGet_set_self _ _ hi, hndc] at hpos
            exact absurd hpos (by omega)
          · rw [bdGet_set_ne _ _ (fun hh => hik hh.symm)] at hpos ⊢
            have hib := hnotb i hi hpos
            rw [mapGet_insert_ne _ _ hib]
            exact hfwd i hi hpos
        · intro b' j hj
          by_cases hbb : b' = b
          · subst hbb
            rw [mapGet_insert_self] at hj
            cases hj
            refine ⟨by simpa using hk1, ?_, Or.inr rfl⟩
            rw [bdGet_set_self _ _ hk1]
            exact hndb
          · rw [mapGet_insert_ne _ _ hbb] at hj
            obtain ⟨hj1, hj2, hj3⟩ := hback b' j hj
            have hjk : j ≠ k := by
              intro hh
              rw [hh] at hj3
              omega
            rw [bdGet_set_ne _ _ (fun hh => hjk hh.symm)]
            exact ⟨by simpa using hj1, hj2, Or.inl hj3⟩
        · simpa using hk1
        · rw [bdGet_set_self _ _ hk1]
          exact hndb
        · exact mapGet_insert_self _ b k
        · simpa using holt
        · rw [bdGet_set_ne _ _ hko]
          exact hne
        · rw [bdGet_set_ne _ _ hko]
          rw [mapGet_insert_ne _ _ hne]
          exact hfwd oldIdx holt hopos
        · rw [bdGet_set_ne _ _ hko]
          exact hopos
    | none =>
      rw [hfr] at hens
      by_cases hge : s.blockData.length ≥ 65535
      · rw [if_pos hge] at hens
        exact absurd hens (by simp)
      · rw [if_neg hge] at hens
        cases hnd : SpaceBlockData.new b with
        | error e => rw [hnd] at hens; exact absurd hens (by simp)
        | ok nd =>
          rw [hnd] at hens
          have h := Except.ok.inj hens
          obtain ⟨h1, h2, h3⟩ : s.blockData.length = newIdx ∧
              ({ s with
                blockData := s.blockData ++ [nd],
                blockToIndex := mapInsert s.blockToIndex b s.blockData.length } : Space) = s1 ∧
              [SpaceChange.number s.blockData.length] = notes1 :=
            ⟨congrArg Prod.fst h, congrArg (fun x => x.2.1) h, congrArg (fun x => x.2.2) h⟩
          subst h2
          obtain ⟨hndb, hndc⟩ := SpaceBlockData.new_ok_fields hnd
          have hko : s.blockData.length ≠ oldIdx := by omega
          have hnotb : ∀ i, i < s.blockData.length → 0 < (bdGet s.blockData i).count →
              (bdGet s.blockData i).block ≠ b := by
            intro i hi hpos hh
            have hfi := hfwd i hi hpos
            rw [hh, hmg] at hfi
            exact absurd hfi (by simp)
          subst h1
          refine ⟨hlen, ?_, ?_, ?_, ?_, ?_, ?_, ?_, hko, ?_, ?_, ?_, hci, rfl, ?_⟩
          · intro i hi
            have := hrange i hi
            simp only [List.length_append, List.length_cons, List.length_nil]
            omega
          · intro i hi
            simp only [List.length_append, List.length_cons, List.length_nil] at hi
            by_cases hik : i = s.blockData.length
            · subst hik
              rw [bdGet_append_self, hndc]
              have hnm : s.blockData.length ∉ s.contents := by
                intro hmm
                exact absurd (hrange s.blockData.length hmm) (by omega)
              exact (List.count_eq_zero.mpr hnm).symm
            · have hilt : i < s.blockData.length := by omega
              rw [bdGet_append_left _ _ hilt]
              exact hcounts i hilt
          · intro i hi hpos
            simp only [List.length_append, List.length_cons, List.length_nil] at hi
            by_cases hik : i = s.blockData.length
            · subst hik
              rw [bdGet_append_self, hndc] at hpos
              exact absurd hpos (by omega)
            · have hilt : i < s.blockData.length := by omega
              rw [bdGet_append_left _ _ hilt] at hpos ⊢
              have hib := hnotb i hilt hpos
              rw [mapGet_insert_ne _ _ hib]
              exact hfwd i hilt hpos
          · intro b' j hj
            by_cases hbb : b' = b
            · subst hbb
              rw [mapGet_insert_self] at hj
              cases hj
              refine ⟨by simp, ?_, Or.inr rfl⟩
              rw [bdGet_append_self]
              exact hndb
            · rw [mapGet_insert_ne _ _ hbb] at hj
              obtain ⟨hj1, hj2, hj3⟩ := hback b' j hj
              rw [bdGet_append_left _ _ hj1]
              refine ⟨?_, hj2, Or.inl hj3⟩
              simp only [List.length_append, List.length_cons, List.length_nil]
              omega
          · simp
          · rw [bdGet_append_self]
            exact hndb
          · exact mapGet_insert_self _ b _
          · simp only [List.length_append, List.length_cons, List.length_nil]
            omega
          · rw [bdGet_append_left _ _ holt]
            exact hne
          · rw [bdGet_append_left _ _ holt]
            rw [mapGet_insert_ne _ _ hne]
            exact hfwd oldIdx holt hopos
          · rw [bdGet_append_left _ _ holt]
            exact hopos

/-- After a successful `ensure_block_index`, the decrement / increment /
contents-write tail of `set_impl` restores the full invariant. -/
theorem tail_inv {s1 : Space} {b : Block} {newIdx oldIdx ci : Nat}
    (h : EnsureMid s1 b newIdx oldIdx ci) :
    SpaceInv
      { (s1.decrementOld oldIdx).incrementNew newIdx with
        contents :=
          ((s1.decrementOld oldIdx).incrementNew newIdx).contents.set ci newIdx } := by
  obtain ⟨hlen, hrange, hcounts, hfwd, hback, hnewLt, hnewBlock, hnewMapped, hneOld,
    holdLt, holdNe, holdMapped, hciLt, hciVal, hopos⟩ := h
  have hno : oldIdx ≠ newIdx := fun hh => hneOld hh.symm
  have hcount4 : ∀ x : Nat, (s1.contents.set ci newIdx).count x =
      s1.contents.count x - (if oldIdx = x then 1 else 0) +
        (if newIdx = x then 1 else 0) := by
    intro x
    rw [count_set_nat s1.contents hciLt newIdx x, hciVal]
  have hctlen : (s1.contents.set ci newIdx).length = s1.contents.length :=
    List.length_set _ _ _
  have hctmem : ∀ x, x ∈ s1.contents.set ci newIdx → x ∈ s1.contents ∨ x = newIdx :=
    fun x hx => List.mem_or_eq_of_mem_set hx
  by_cases hone : (bdGet s1.blockData oldIdx).count - 1 = 0
  · -- the old index's count reaches zero: tombstone and unmap it
    have hd2 : s1.decrementOld oldIdx =
        { s1 with
          blockToIndex := mapRemove s1.blockToIndex (bdGet s1.blockData oldIdx).block,
          blockData := s1.blockData.set oldIdx SpaceBlockData.tombstone } := by
      unfold Space.decrementOld
      dsimp only
      rw [if_pos hone]
    rw [hd2]
    unfold Space.incrementNew
    dsimp only
    rw [bdGet_set_ne _ _ hno]
    set ne1 := bdGet s1.blockData newIdx with hne1
    set oldBlock := (bdGet s1.blockData oldIdx).block with hob
    have hbd4 : ∀ j, bdGet ((s1.blockData.set oldIdx SpaceBlockData.tombstone).set newIdx
        { ne1 with count := ne1.count + 1 }) j =
        if j = newIdx then { ne1 with count := ne1.count + 1 }
        else if j = oldIdx then SpaceBlockData.tombstone
        else bdGet s1.blockData j := by
      intro j
      by_cases hjn : j = newIdx
      · subst hjn
        rw [if_pos rfl, bdGet_set_self _ _ (by simpa using hnewLt)]
      · rw [if_neg hjn, bdGet_set_ne _ _ (fun hh => hjn hh.symm)]
        by_cases hjo : j = oldIdx
        · subst hjo
          rw [if_pos rfl, bdGet_set_self _ _ holdLt]
        · rw [if_neg hjo, bdGet_set_ne _ _ (fun hh => hjo hh.symm)]
    refine ⟨?_, ?_, ?_, ?_, ?_⟩
    · -- lengths
      unfold contentsLengthOk at hlen ⊢
      dsimp only
      rw [hctlen]
      exact hlen
    · -- range
      intro x hx
      dsimp only at hx ⊢
      rcases hctmem x hx with hmem | rfl
      · have := hrange x hmem
        simpa using this
      · simpa using hnewLt
    · -- counts
      intro i hi
      dsimp only at hi ⊢
      rw [hbd4 i, hcount4 i]
      simp only [List.length_set] at hi
      by_cases hin : i = newIdx
      · subst hin
        rw [if_pos rfl, if_neg hno, if_pos rfl]
        dsimp only
        rw [hcounts i hi]
        omega
      · rw [if_neg hin]
        by_cases hio : i = oldIdx
        · subst hio
          rw [if_pos rfl, if_pos rfl, if_neg (fun hh => hin hh.symm)]
          have := hcounts i hi
          show (0 : Nat) = _
          omega
        · rw [if_neg hio, if_neg (fun hh => hio hh.symm), if_neg (fun hh => hin hh.symm)]
          rw [hcounts i hi]
          omega
    · -- forward
      intro i hi hpos
      dsimp only at hi hpos ⊢
      rw [hbd4 i] at hpos ⊢
      simp only [List.length_set] at hi
      by_cases hin : i = newIdx
      · subst hin
        rw [if_pos rfl]
        dsimp only
        rw [hnewBlock]
        rw [mapGet_remove_ne _ (fun hh => holdNe hh.symm)]
        exact hnewMapped
      · rw [if_neg hin] at hpos ⊢
        by_cases hio : i = oldIdx
        · subst hio
          rw [if_pos rfl] at hpos
          exact absurd hpos (by simp [SpaceBlockData.tombstone])
        · rw [if_neg hio] at hpos ⊢
          have hfi := hfwd i hi hpos
          have hbo : (bdGet s1.blockData i).block ≠ oldBlock := by
            intro hh
            rw [hh] at hfi
            rw [hfi] at holdMapped
            exact hio (Option.some.inj holdMapped)
          rw [mapGet_remove_ne _ hbo]
          exact hfi
    · -- backward
      intro b' j hj
      dsimp only at hj ⊢
      rw [hbd4 j]
      by_cases hbo : b' = oldBlock
      · subst hbo
        rw [mapGet_remove_self] at hj
        exact absurd hj (by simp)
      · rw [mapGet_remove_ne _ hbo] at hj
        obtain ⟨hj1, hj2, hj3⟩ := hback b' j hj
        have hjo : j ≠ oldIdx := by
          intro hh
          subst hh
          exact hbo hj2.symm
        by_cases hjn : j = newIdx
        · subst hjn
          rw [if_pos rfl]
          refine ⟨by simpa using hj1, ?_, by simp⟩
          dsimp only
          rw [← hne1] at hj2
          exact hj2
        · rw [if_neg hjn, if_neg hjo]
          refine ⟨by simpa using hj1, hj2, ?_⟩
          rcases hj3 with hp | hp
          · exact hp
          · exact absurd hp hjn
  · -- the old index stays live with a decremented count
    have hd2 : s1.decrementOld oldIdx =
        { s1 with
          blockData := s1.blockData.set oldIdx
            { bdGet s1.blockData oldIdx with
              count := (bdGet s1.blockData oldIdx).count - 1 } } := by
      unfold Space.decrementOld
      dsimp only
      rw [if_neg hone]
    rw [hd2]
    unfold Space.incrementNew
    dsimp only
    rw [bdGet_set_ne _ _ hno]
    set ne1 := bdGet s1.blockData newIdx with hne1
    set od := bdGet s1.blockData oldIdx with hod
    have hbd4 : ∀ j, bdGet ((s1.blockData.set oldIdx
        { od with count := od.count - 1 }).set newIdx
        { ne1 with count := ne1.count + 1 }) j =
        if j = newIdx then { ne1 with count := ne1.count + 1 }
        else if j = oldIdx then { od with count := od.count - 1 }
        else bdGet s1.blockData j := by
      intro j
      by_cases hjn : j = newIdx
      · subst hjn
        rw [if_pos rfl, bdGet_set_self _ _ (by simpa using hnewLt)]
      · rw [if_neg hjn, bdGet_set_ne _ _ (fun hh => hjn hh.symm)]
        by_cases hjo : j = oldIdx
        · subst hjo
          rw [if_pos rfl, bdGet_set_self _ _ holdLt]
        · rw [if_neg hjo, bdGet_set_ne _ _ (fun hh => hjo hh.symm)]
    refine ⟨?_, ?_, ?_, ?_, ?_⟩
    · unfold contentsLengthOk at hlen ⊢
      dsimp only
      rw [hctlen]
      exact hlen
    · intro x hx
      dsimp only at hx ⊢
      rcases hctmem x hx with hmem | rfl
      · have := hrange x hmem
        simpa using this
      · simpa using hnewLt
    · intro i hi
      dsimp only at hi ⊢
      rw [hbd4 i, hcount4 i]
      simp only [List.length_set] at hi
      by_cases hin : i = newIdx
      · subst hin
        rw [if_pos rfl, if_neg hno, if_pos rfl]
        dsimp only
        rw [hcounts i hi]
        omega
      · rw [if_neg hin]
        by_cases hio : i = oldIdx
        · subst hio
          rw [if_pos rfl, if_pos rfl, if_neg (fun hh => hin hh.symm)]
          dsimp only
          rw [hcounts i hi]
          omega
        · rw [if_neg hio, if_neg (fun hh => hio hh.symm), if_neg (fun hh => hin hh.symm)]
          rw [hcounts i hi]
          omega
    · intro i hi hpos
      dsimp only at hi hpos ⊢
      rw [hbd4 i] at hpos ⊢
      simp only [List.length_set] at hi
      by_cases hin : i = newIdx
      · subst hin
        rw [if_pos rfl]
        dsimp only
        rw [hnewBlock]
        exact hnewMapped
      · rw [if_neg hin] at hpos ⊢
        by_cases hio : i = oldIdx
        · subst hio
          rw [if_pos rfl] at hpos ⊢
          dsimp only
          exact holdMapped
        · rw [if_neg hio] at hpos ⊢
          exact hfwd i hi hpos
    · intro b' j hj
      dsimp only at hj ⊢
      rw [hbd4 j]
      obtain ⟨hj1, hj2, hj3⟩ := hback b' j hj
      by_cases hjn : j = newIdx
      · subst hjn
        rw [if_pos rfl]
        refine ⟨by simpa using hj1, ?_, by simp⟩
        dsimp only
        rw [← hne1] at hj2
        exact hj2
      · rw [if_neg hjn]
        by_cases hjo : j = oldIdx
        · subst hjo
          rw [if_pos rfl]
          refine ⟨by simpa using hj1, ?_, ?_⟩
          · dsimp only
            rw [← hod] at hj2
            exact hj2
          · dsimp only
            omega
        · rw [if_neg hjo]
          refine ⟨by simpa using hj1, hj2, ?_⟩
          rcases hj3 with hp | hp
          · exact hp
          · exact absurd hp hjn

/-- Every successful `set` preserves the full invariant. -/
theorem setImpl_preserves_inv {s : Space} (p : GridPoint) (b : Block) {ch : Bool}
    (hinv : SpaceInv s) (hok : (s.setImpl p b).1 = Except.ok ch) :
    SpaceInv (s.setImpl p b).2.1 := by
  revert hok
  unfold Space.setImpl
  cases hidx : s.grid.index p with
  | none =>
    intro hok
    dsimp only at hok
    exact absurd hok (by simp)
  | some ci =>
    dsimp only
    have hci : ci < s.contents.length := by
      rw [hinv.1]
      exact Grid.index_lt_volume hidx
    by_cases h1 : (bdGet s.blockData (s.contents.getD ci 0)).block = b
    · rw [if_pos h1]
      intro _
      exact hinv
    · rw [if_neg h1]
      by_cases h2 : (bdGet s.blockData (s.contents.getD ci 0)).count = 1 ∧
          mapGet s.blockToIndex b = none
      · rw [if_pos h2]
        cases hnd : SpaceBlockData.new b with
        | error e =>
          intro hok
          exact absurd hok (by simp)
        | ok nd =>
          intro _
          dsimp only
          have hin := inplace_inv s b hinv hci h1 h2.1 h2.2 hnd
          obtain ⟨hg, hm, hd, hc⟩ := sideEffects_frame _ (s.contents.getD ci 0) p ci
          exact spaceInv_congr hg hm hd hc hin
      · rw [if_neg h2]
        cases hens : s.ensureBlockIndex b with
        | error e =>
          intro hok
          exact absurd hok (by simp)
        | ok v =>
          obtain ⟨newIdx, s1, notes1⟩ := v
          intro _
          dsimp only
          have hmid := ensure_mid hinv hci h1 hens
          have htail := tail_inv hmid
          obtain ⟨hg, hm, hd, hc⟩ := sideEffects_frame _ newIdx p ci
          exact spaceInv_congr hg hm hd hc htail

/-! ## Claim C1: the refcount invariant on all reachable states -/

/-- C1: in every state reachable from a freshly constructed space by
successful `set` operations, every table entry's count equals the number
of contents entries holding its index; every index with positive count is
exactly the index the reverse map assigns to its block value; and indices
with count zero do not appear in the reverse map. -/
theorem space_refcount_invariant (s : Space) (h : Reachable s) :
    (∀ i < s.blockData.length, (bdGet s.blockData i).count = s.contents.count i) ∧
    (∀ i < s.blockData.length, 0 < (bdGet s.blockData i).count →
      mapGet s.blockToIndex (bdGet s.blockData i).block = some i) ∧
    (∀ i < s.blockData.length, (bdGet s.blockData i).count = 0 →
      ∀ b, mapGet s.blockToIndex b ≠ some i) := by
  have hinv : SpaceInv s := by
    induction h with
    | build g lp => exact build_inv g lp
    | step position block hr hok ih => exact setImpl_preserves_inv position block ih hok
  obtain ⟨_, _, hcounts, hfwd, hback⟩ := hinv
  refine ⟨hcounts, hfwd, ?_⟩
  intro i hi hz b hmb
  obtain ⟨_, _, hpos⟩ := hback b i hmb
  omega

/-! ## Witnesses -/

theorem space_refcount_invariant_witness :
    Reachable wSpace1 ∧
    ((∀ i < wSpace1.blockData.length,
        (bdGet wSpace1.blockData i).count = wSpace1.contents.count i) ∧
      (∀ i < wSpace1.blockData.length, 0 < (bdGet wSpace1.blockData i).count →
        mapGet wSpace1.blockToIndex (bdGet wSpace1.blockData i).block = some i) ∧
      (∀ i < wSpace1.blockData.length, (bdGet wSpace1.blockData i).count = 0 →
        ∀ b, mapGet wSpace1.blockToIndex b ≠ some i)) :=
  have hr : Reachable wSpace1 :=
    @Reachable.step wSpace0 ⟨0, 0, 0⟩ wBlockA true
      (Reachable.build wGrid (LightPhysics.rays 30)) (by decide)
  ⟨hr, space_refcount_invariant wSpace1 hr⟩

theorem set_inplace_replace_stability_witness :
    ((wSpace1.setImpl ⟨0, 0, 0⟩ wBlockB).1 = Except.ok true ∧
      (wSpace1.setImpl ⟨0, 0, 0⟩ wBlockB).2.1.contents = wSpace1.contents ∧
      (wSpace1.setImpl ⟨0, 0, 0⟩ wBlockB).2.1.contents.getD 0 0 = 1) ∧
    ((wSpace1.setImpl ⟨0, 0, 0⟩ Block.air).1 = Except.ok true ∧
      (wSpace1.setImpl ⟨0, 0, 0⟩ Block.air).2.1.contents.getD 0 0 = 0) := by
  have h1 := set_inplace_replace_stability wSpace1 ⟨0, 0, 0⟩ wBlockB 0 1
    (by decide) (by decide) (by decide) (by decide) (by decide)
  have h2 := set_inplace_replace_stability wSpace1 ⟨0, 0, 0⟩ Block.air 0 1
    (by decide) (by decide) (by decide) (by decide) (by decide)
  exact ⟨h1.1 ⟨true, false⟩ (by decide) (by decide), h2.2 0 (by decide)⟩

theorem chunk_chart_boundary_counts_witness :
    (ChunkChart.new 0).chunksList ⟨⟨1, 2, 3⟩⟩ = [⟨⟨1, 2, 3⟩⟩] ∧
    (((ChunkChart.new 1).chunksList ⟨⟨1, 2, 3⟩⟩).Perm
      (neighborCube.map (fun v => ChunkPos.mk ((⟨1, 2, 3⟩ : GridPoint) + v))) ∧
      ((ChunkChart.new 1).chunksList ⟨⟨1, 2, 3⟩⟩).Nodup) := by
  have h := chunk_chart_boundary_counts ⟨⟨1, 2, 3⟩⟩
  exact ⟨h.1, h.2 1 (by decide) (by decide)⟩

theorem set_strong_exception_safety_witness :
    wSpace0.setImpl ⟨9, 9, 9⟩ wBlockA =
      (Except.error (SetCubeError.outOfBounds (Grid.singleCube ⟨9, 9, 9⟩) wGrid),
        wSpace0, []) ∧
    (wSpace0.setImpl ⟨9, 9, 9⟩ wBlockA).2.1 = wSpace0 ∧
    (wSpace0.setImpl ⟨9, 9, 9⟩ wBlockA).2.2 = [] := by
  have heq : wSpace0.setImpl ⟨9, 9, 9⟩ wBlockA =
      (Except.error (SetCubeError.outOfBounds (Grid.singleCube ⟨9, 9, 9⟩) wGrid),
        wSpace0, []) := by decide
  have h := set_strong_exception_safety wSpace0 ⟨9, 9, 9⟩ wBlockA _ _ _ heq
  exact ⟨heq, congrArg (fun r => r.2.1) heq, h.2⟩

theorem evaluate_light_loop_spec_witness :
    evaluateLightLoop wPass 0 1 wSpace0 = some (5, [wInfo], wSpace0) ∧
    (0 < [wInfo].length ∧
      (∀ k, k < [wInfo].length →
        [wInfo].getD k ⟨0, 0, 0⟩ = (wPass (passIterate wPass k wSpace0)).2) ∧
      wSpace0 = passIterate wPass [wInfo].length wSpace0 ∧
      5 = ([wInfo].map (fun i => i.updateCount)).sum ∧
      (∀ k, k + 1 < [wInfo].length →
        ¬(([wInfo].getD k ⟨0, 0, 0⟩).queueCount = 0 ∨
          ([wInfo].getD k ⟨0, 0, 0⟩).maxQueuePriority ≤ 0)) ∧
      (([wInfo].getD ([wInfo].length - 1) ⟨0, 0, 0⟩).queueCount = 0 ∨
        ([wInfo].getD ([wInfo].length - 1) ⟨0, 0, 0⟩).maxQueuePriority ≤ 0)) := by
  have heq : evaluateLightLoop wPass 0 1 wSpace0 = some (5, [wInfo], wSpace0) := by decide
  exact ⟨heq, evaluate_light_loop_spec wPass 0 1 wSpace0 5 [wInfo] wSpace0 heq⟩

theorem set_noop_on_equal_block_witness :
    wSpace0.grid.index ⟨0, 0, 0⟩ = some 0 ∧
    (bdGet wSpace0.blockData (wSpace0.contents.getD 0 0)).block = Block.air ∧
    wSpace0.setImpl ⟨0, 0, 0⟩ Block.air = (Except.ok false, wSpace0, []) :=
  ⟨by decide, by decide,
    set_noop_on_equal_block wSpace0 ⟨0, 0, 0⟩ Block.air 0 (by decide) (by decide)⟩

theorem ensure_block_index_allocation_witness :
    mapGet wSpace0.blockToIndex wBlockA = none ∧
    ((findFreeIndex wSpace0.blockData = none ↔
        ∀ j < wSpace0.blockData.length, (bdGet wSpace0.blockData j).count ≠ 0) ∧
      (∀ k, findFreeIndex wSpace0.blockData = some k →
        (bdGet wSpace0.blockData k).count = 0 ∧
          (∀ j < k, (bdGet wSpace0.blockData j).count ≠ 0) ∧
          ∀ nd, SpaceBlockData.new wBlockA = Except.ok nd →
            wSpace0.ensureBlockIndex wBlockA = Except.ok (k,
              { wSpace0 with
                blockData := wSpace0.blockData.set k nd,
                blockToIndex := mapInsert wSpace0.blockToIndex wBlockA k },
              [SpaceChange.number k])) ∧
      (findFreeIndex wSpace0.blockData = none → wSpace0.blockData.length < 65535 →
        ∀ nd, SpaceBlockData.new wBlockA = Except.ok nd →
          wSpace0.ensureBlockIndex wBlockA = Except.ok (wSpace0.blockData.length,
            { wSpace0 with
              blockData := wSpace0.blockData ++ [nd],
              blockToIndex := mapInsert wSpace0.blockToIndex wBlockA wSpace0.blockData.length },
            [SpaceChange.number wSpace0.blockData.length])) ∧
      (wSpace0.ensureBlockIndex wBlockA = Except.error SetCubeError.tooManyBlocks ↔
        findFreeIndex wSpace0.blockData = none ∧ 65535 ≤ wSpace0.blockData.length)) :=
  ⟨by decide, ensure_block_index_allocation wSpace0 wBlockA (by decide)⟩

theorem fill_uniform_whole_grid_frame_witness :
    Block.evaluate wBlockB = Except.ok ⟨true, false⟩ ∧
    (wSpace0.fillUniform wSpace0.grid wBlockB =
      (Except.ok (),
        { wSpace0 with
          blockToIndex := [(wBlockB, 0)],
          blockData := [⟨wBlockB, wSpace0.grid.volume, ⟨true, false⟩⟩],
          contents := List.replicate wSpace0.contents.length 0 },
        [SpaceChange.everyBlock]) ∧
      (wSpace0.fillUniform wSpace0.grid wBlockB).2.1.lighting = wSpace0.lighting ∧
      (wSpace0.fillUniform wSpace0.grid wBlockB).2.1.lightUpdateQueue =
        wSpace0.lightUpdateQueue) :=
  ⟨by decide, fill_uniform_whole_grid_frame wSpace0 wBlockB ⟨true, false⟩ (by decide)⟩

end AllIsCubes
